import Mathlib

/-!
# Recursive-descent sentence parser (`lab_2/parser.cpp`)

A shallow embedding of the parser of `lab_2/parser.cpp`.

* The C++ globals (`lookahead`, the lexer's `yytext`, the lexer's position in
  its input) are gathered in an explicit `Cursor` that every procedure
  receives and returns.
* `throw runtime_error(msg)` is the outcome `thrown msg s`, where `s` is the
  value of the globals at the moment of the throw (C++ statics survive the
  unwinding).
* The `while` loop of `parseVerbPhrase` is a recursion on a fuel counter; the
  outcome `outOfFuel` stands for a loop that did not stop within its fuel, and
  is proved never to occur.
* `dbg`, `dbgLine` and `DebugIndent` only write to a trace sink and never feed
  back into the parser; they are left out.
-/

namespace Lab2

/-- Modelled from the spec: the token kinds of `lexer.h`, which is not part of
the sources. The six terminals, the end-of-input marker `TOK_EOF`, and
`UNKNOWN code` for any other integer the lexer may return (a lexer error
kind). -/
inductive TokenKind where
  | ARTICLE
  | POSSESSIVE
  | ADJECTIVE
  | NOUN
  | ADVERB
  | VERB
  | TOK_EOF
  | UNKNOWN (code : Nat)
  deriving DecidableEq, Repr

/-- A token as the token source delivers it: the value returned by `yylex()`
and the text `yytext` points to afterwards. -/
structure Token where
  kind : TokenKind
  lexeme : String
  deriving DecidableEq, Repr

/-- The mutable globals the parser works on: the static `lookahead`, the
lexer's `yytext`, the tokens the lexer has not delivered yet (`input`), and a
ghost counter `pulls` of the calls made to `yylex()`. -/
structure Cursor where
  lookahead : TokenKind
  yytext : String
  input : List Token
  pulls : Nat
  deriving DecidableEq, Repr

/-- Modelled from the spec: the Flex lexer `yylex()`, which is not part of the
sources. The token source supplies a finite sequence of (kind, lexeme) pairs;
once the sequence is exhausted it returns the end-of-input marker with an
empty text, again and again. -/
def yylex (input : List Token) : Token × List Token :=
  match input with
  | [] => (⟨TokenKind.TOK_EOF, ""⟩, [])
  | t :: rest => (t, rest)

/-- `static void next()`: `lookahead = yylex();`. -/
def next (s : Cursor) : Cursor :=
  let r := yylex s.input
  { lookahead := r.1.kind, yytext := r.1.lexeme, input := r.2, pulls := s.pulls + 1 }

/-- The result of running a parser procedure on a cursor: a value and the
cursor afterwards, an exception with its message and the cursor at the throw,
or a loop that ran out of fuel. -/
inductive Outcome (α : Type) where
  | ok (v : α) (s : Cursor)
  | thrown (msg : String) (s : Cursor)
  | outOfFuel
  deriving DecidableEq, Repr

/-- Sequencing of two statements: the second runs only when the first returned
normally; an exception of the first propagates unchanged. -/
def Outcome.bind {α β : Type} (r : Outcome α) (f : α → Cursor → Outcome β) : Outcome β :=
  match r with
  | Outcome.ok v s => f v s
  | Outcome.thrown msg s => Outcome.thrown msg s
  | Outcome.outOfFuel => Outcome.outOfFuel

/-- `static string expect(int tok, const char* msgIfMismatch)`. -/
def expect (tok : TokenKind) (msgIfMismatch : String) (s : Cursor) : Outcome String :=
  if s.lookahead = tok then
    let lex := s.yytext
    Outcome.ok lex (next s)
  else
    Outcome.thrown msgIfMismatch s

/-- `AdjectivePhrase::DetType` of `parser.h`. -/
inductive DetType where
  | Article
  | Possessive
  deriving DecidableEq, Repr

/-- `struct AdjectivePhrase` of `parser.h`, with the fields the parser fills. -/
structure AdjectivePhrase where
  detType : DetType
  detLexeme : String
  adjLexeme : String
  deriving DecidableEq, Repr

/-- `struct NounPhrase` of `parser.h`. -/
structure NounPhrase where
  adj : AdjectivePhrase
  nounLexeme : String
  deriving DecidableEq, Repr

/-- `struct VerbPhrase` of `parser.h`. -/
structure VerbPhrase where
  adverbs : List String
  verbLexeme : String
  deriving DecidableEq, Repr

/-- `struct Sentence` of `parser.h`. -/
structure Sentence where
  subjectNP : NounPhrase
  verbP : VerbPhrase
  objectNP : NounPhrase
  deriving DecidableEq, Repr

/-- `unique_ptr<AdjectivePhrase> parseAdjectivePhrase()`. -/
def parseAdjectivePhrase (s : Cursor) : Outcome AdjectivePhrase :=
  -- FIRST check
  if s.lookahead ≠ TokenKind.ARTICLE ∧ s.lookahead ≠ TokenKind.POSSESSIVE then
    Outcome.thrown "<adjective phrase> did not start with an article or possessive." s
  else
    -- Determiner (ARTICLE | POSSESSIVE)
    (if s.lookahead = TokenKind.ARTICLE then
      (expect TokenKind.ARTICLE
        "<adjective phrase> did not start with an article or possessive." s).bind
        fun lex s1 => Outcome.ok (DetType.Article, lex) s1
    else
      (expect TokenKind.POSSESSIVE
        "<adjective phrase> did not start with an article or possessive." s).bind
        fun lex s1 => Outcome.ok (DetType.Possessive, lex) s1).bind
    fun det s1 =>
      -- ADJECTIVE
      (expect TokenKind.ADJECTIVE "<adjective phrase> did not have an adjective." s1).bind
      fun adjLexeme s2 =>
        Outcome.ok { detType := det.1, detLexeme := det.2, adjLexeme := adjLexeme } s2

/-- `unique_ptr<NounPhrase> parseNounPhrase()`. -/
def parseNounPhrase (s : Cursor) : Outcome NounPhrase :=
  -- FIRST check
  if s.lookahead ≠ TokenKind.ARTICLE ∧ s.lookahead ≠ TokenKind.POSSESSIVE then
    Outcome.thrown "<noun phrase> did not start with an article or possessive." s
  else
    (parseAdjectivePhrase s).bind fun adj s1 =>
      (expect TokenKind.NOUN "<noun phrase> did not have a noun." s1).bind
      fun nounLexeme s2 => Outcome.ok { adj := adj, nounLexeme := nounLexeme } s2

/-- The loop `while (lookahead==ADVERB) node->adverbs.push_back(expect(ADVERB, ...))`
of `parseVerbPhrase`, with the adverbs collected so far and a bound on the
number of times the condition is evaluated. -/
def adverbLoop : Nat → List String → Cursor → Outcome (List String)
  | 0, _, _ => Outcome.outOfFuel
  | fuel + 1, adverbs, s =>
    if s.lookahead = TokenKind.ADVERB then
      (expect TokenKind.ADVERB "<verb phrase> did not start with adv" s).bind
        fun lex s1 => adverbLoop fuel (adverbs ++ [lex]) s1
    else
      Outcome.ok adverbs s

/-- `unique_ptr<VerbPhrase> parseVerbPhrase()`. The loop gets two more
evaluations of its condition than there are undelivered tokens. -/
def parseVerbPhrase (s : Cursor) : Outcome VerbPhrase :=
  -- FIRST check
  if s.lookahead ≠ TokenKind.VERB ∧ s.lookahead ≠ TokenKind.ADVERB then
    Outcome.thrown "<verb phrase> did not start with a verb or an adverb." s
  else
    (adverbLoop (s.input.length + 2) [] s).bind fun adverbs s1 =>
      (expect TokenKind.VERB "<verb phrase> did not start with a verb or an adverb." s1).bind
      fun verbLexeme s2 => Outcome.ok { adverbs := adverbs, verbLexeme := verbLexeme } s2

/-- `unique_ptr<Sentence> parseSentence()`. -/
def parseSentence (s : Cursor) : Outcome Sentence :=
  -- FIRST check
  if s.lookahead ≠ TokenKind.ARTICLE ∧ s.lookahead ≠ TokenKind.POSSESSIVE then
    Outcome.thrown "<sentence> did not start with an article or possessive." s
  else
    (parseNounPhrase s).bind fun subjectNP s1 =>
      (parseVerbPhrase s1).bind fun verbP s2 =>
        (parseNounPhrase s2).bind fun objectNP s3 =>
          Outcome.ok { subjectNP := subjectNP, verbP := verbP, objectNP := objectNP } s3

/-- `unique_ptr<Sentence> parseStart()`: prime the lookahead, parse, enforce
end of input. -/
def parseStart (s : Cursor) : Outcome Sentence :=
  (parseSentence (next s)).bind fun root s1 =>
    if s1.lookahead ≠ TokenKind.TOK_EOF then
      Outcome.thrown "Extra input after complete sentence." s1
    else
      Outcome.ok root s1

/-! ## Vocabulary of the statements -/

/-- The tokens the source delivers up to and including the first end-of-input
marker; an exhausted source delivers the marker itself (see `yylex`). -/
def upToEOF : List Token → List Token
  | [] => [⟨TokenKind.TOK_EOF, ""⟩]
  | t :: ts => if t.kind = TokenKind.TOK_EOF then [t] else t :: upToEOF ts

/-- The current token of a cursor followed by the tokens not yet delivered. -/
def Cursor.stream (s : Cursor) : List Token :=
  ⟨s.lookahead, s.yytext⟩ :: s.input

/-- The current token of a cursor followed by what the source will still
deliver, up to and including the first end-of-input marker. -/
def Cursor.pending (s : Cursor) : List Token :=
  if s.lookahead = TokenKind.TOK_EOF then [⟨s.lookahead, s.yytext⟩]
  else ⟨s.lookahead, s.yytext⟩ :: upToEOF s.input

/-- The lexemes of a sentence tree in traversal order: subject determiner,
adjective, noun, the adverbs, the verb, object determiner, adjective, noun. -/
def Sentence.lexemes (t : Sentence) : List String :=
  [t.subjectNP.adj.detLexeme, t.subjectNP.adj.adjLexeme, t.subjectNP.nounLexeme]
    ++ t.verbP.adverbs
    ++ [t.verbP.verbLexeme, t.objectNP.adj.detLexeme, t.objectNP.adj.adjLexeme,
        t.objectNP.nounLexeme]

/-- The determiner kind recorded for a token kind that passed the FIRST check
of an adjective phrase. -/
def detTypeOf (k : TokenKind) : DetType :=
  if k = TokenKind.ARTICLE then DetType.Article else DetType.Possessive

/-- The messages the procedures of `parser.cpp` pass to `runtime_error`, the
placeholder of the adverb loop apart. -/
def parserMessages : List String :=
  [ "<sentence> did not start with an article or possessive.",
    "<noun phrase> did not start with an article or possessive.",
    "<adjective phrase> did not start with an article or possessive.",
    "<adjective phrase> did not have an adjective.",
    "<noun phrase> did not have a noun.",
    "<verb phrase> did not start with a verb or an adverb.",
    "Extra input after complete sentence." ]

/-- The messages as the specification words them, each with and without its
final period. -/
def specMessages : List String :=
  [ "sentence did not start with an article or possessive",
    "sentence did not start with an article or possessive.",
    "noun phrase did not start with an article or possessive",
    "noun phrase did not start with an article or possessive.",
    "adjective phrase did not start with an article or possessive",
    "adjective phrase did not start with an article or possessive.",
    "adjective phrase did not have an adjective",
    "adjective phrase did not have an adjective.",
    "noun phrase did not have a noun",
    "noun phrase did not have a noun.",
    "verb phrase did not start with a verb or an adverb",
    "verb phrase did not start with a verb or an adverb.",
    "extra input after complete sentence",
    "extra input after complete sentence." ]

/-- The kinds of a well-formed input, following the grammar of the
specification: Sentence → NounPhrase VerbPhrase NounPhrase with NounPhrase →
(ARTICLE | POSSESSIVE) ADJECTIVE NOUN and VerbPhrase → ADVERB* VERB, followed by
the end-of-input marker. -/
def IsSentenceStream (ks : List TokenKind) : Prop :=
  ∃ (d1 d2 : TokenKind) (n : Nat),
    (d1 = TokenKind.ARTICLE ∨ d1 = TokenKind.POSSESSIVE) ∧
    (d2 = TokenKind.ARTICLE ∨ d2 = TokenKind.POSSESSIVE) ∧
    ks = [d1, TokenKind.ADJECTIVE, TokenKind.NOUN] ++ List.replicate n TokenKind.ADVERB
      ++ [TokenKind.VERB, d2, TokenKind.ADJECTIVE, TokenKind.NOUN, TokenKind.TOK_EOF]

/-- A list of kinds that some continuation extends to a well-formed input. -/
def Viable (ks : List TokenKind) : Prop :=
  ∃ cont : List TokenKind, IsSentenceStream (ks ++ cont)

/-- The cursor `s'` is reached from `s` by matching the tokens `pre` one after
the other: each is the current token when its turn comes, none is the
end-of-input marker, and each match is followed by one `next()`. -/
def Matched : Cursor → List Token → Cursor → Prop
  | s, [], s' => s' = s
  | s, t :: ts, s' =>
    s.lookahead = t.kind ∧ s.yytext = t.lexeme ∧ t.kind ≠ TokenKind.TOK_EOF ∧
      Matched (next s) ts s'

/-- Inside a noun phrase of which the kinds `ks` have been matched, the kind
`x` cannot come next. -/
def NPStuck (ks : List TokenKind) (x : TokenKind) : Prop :=
  (ks = [] ∧ x ≠ TokenKind.ARTICLE ∧ x ≠ TokenKind.POSSESSIVE) ∨
  ∃ d : TokenKind, (d = TokenKind.ARTICLE ∨ d = TokenKind.POSSESSIVE) ∧
    ((ks = [d] ∧ x ≠ TokenKind.ADJECTIVE) ∨
      (ks = [d, TokenKind.ADJECTIVE] ∧ x ≠ TokenKind.NOUN))

/-- Inside a sentence of which the kinds `ks` have been matched, the kind `x`
cannot come next: in the subject, in the verb phrase, or in the object. -/
def SentenceStuck (ks : List TokenKind) (x : TokenKind) : Prop :=
  NPStuck ks x ∨
  (∃ (d : TokenKind) (n : Nat), (d = TokenKind.ARTICLE ∨ d = TokenKind.POSSESSIVE) ∧
    ks = [d, TokenKind.ADJECTIVE, TokenKind.NOUN] ++ List.replicate n TokenKind.ADVERB ∧
    x ≠ TokenKind.VERB ∧ x ≠ TokenKind.ADVERB) ∨
  (∃ (d : TokenKind) (n : Nat) (ks2 : List TokenKind),
    (d = TokenKind.ARTICLE ∨ d = TokenKind.POSSESSIVE) ∧
    ks = [d, TokenKind.ADJECTIVE, TokenKind.NOUN] ++ List.replicate n TokenKind.ADVERB
      ++ TokenKind.VERB :: ks2 ∧
    NPStuck ks2 x)

/-- The kinds `ks` have been matched and `x` cannot come next: inside the
sentence, or after a whole sentence when `x` is not the end-of-input marker. -/
def Stuck (ks : List TokenKind) (x : TokenKind) : Prop :=
  SentenceStuck ks x ∨
  (∃ (d1 d2 : TokenKind) (n : Nat),
    (d1 = TokenKind.ARTICLE ∨ d1 = TokenKind.POSSESSIVE) ∧
    (d2 = TokenKind.ARTICLE ∨ d2 = TokenKind.POSSESSIVE) ∧
    ks = [d1, TokenKind.ADJECTIVE, TokenKind.NOUN] ++ List.replicate n TokenKind.ADVERB
      ++ [TokenKind.VERB, d2, TokenKind.ADJECTIVE, TokenKind.NOUN] ∧
    x ≠ TokenKind.TOK_EOF)

/-! ## Basic facts -/

@[simp] theorem bind_ok {α β : Type} (v : α) (s : Cursor) (f : α → Cursor → Outcome β) :
    (Outcome.ok v s).bind f = f v s := rfl

@[simp] theorem bind_thrown {α β : Type} (m : String) (s : Cursor)
    (f : α → Cursor → Outcome β) :
    (Outcome.thrown m s : Outcome α).bind f = Outcome.thrown m s := rfl

@[simp] theorem bind_outOfFuel {α β : Type} (f : α → Cursor → Outcome β) :
    (Outcome.outOfFuel : Outcome α).bind f = Outcome.outOfFuel := rfl

theorem bind_eq_ok {α β : Type} {r : Outcome α} {f : α → Cursor → Outcome β}
    {v : β} {s' : Cursor} (h : r.bind f = Outcome.ok v s') :
    ∃ a s1, r = Outcome.ok a s1 ∧ f a s1 = Outcome.ok v s' := by
  cases r with
  | ok a s1 => exact ⟨a, s1, rfl, h⟩
  | thrown m s1 => simp at h
  | outOfFuel => simp at h

theorem bind_eq_thrown {α β : Type} {r : Outcome α} {f : α → Cursor → Outcome β}
    {m : String} {s' : Cursor} (h : r.bind f = Outcome.thrown m s') :
    r = Outcome.thrown m s' ∨ ∃ a s1, r = Outcome.ok a s1 ∧ f a s1 = Outcome.thrown m s' := by
  cases r with
  | ok a s1 => exact Or.inr ⟨a, s1, rfl, h⟩
  | thrown m1 s1 => simpa using h
  | outOfFuel => simp at h

theorem bind_eq_outOfFuel {α β : Type} {r : Outcome α} {f : α → Cursor → Outcome β}
    (h : r.bind f = Outcome.outOfFuel) :
    r = Outcome.outOfFuel ∨ ∃ a s1, r = Outcome.ok a s1 ∧ f a s1 = Outcome.outOfFuel := by
  cases r with
  | ok a s1 => exact Or.inr ⟨a, s1, rfl, h⟩
  | thrown m1 s1 => simp at h
  | outOfFuel => exact Or.inl rfl

@[simp] theorem next_pulls (s : Cursor) : (next s).pulls = s.pulls + 1 := rfl

theorem next_cons (la : TokenKind) (y : String) (t : Token) (rest : List Token) (p : Nat) :
    next ⟨la, y, t :: rest, p⟩ = ⟨t.kind, t.lexeme, rest, p + 1⟩ := rfl

theorem next_nil (la : TokenKind) (y : String) (p : Nat) :
    next ⟨la, y, [], p⟩ = ⟨TokenKind.TOK_EOF, "", [], p + 1⟩ := rfl

theorem next_input (s : Cursor) : (next s).input = s.input.tail := by
  cases s with
  | mk la y inp p => cases inp <;> rfl

theorem next_stream (s : Cursor) (h : s.input ≠ []) : (next s).stream = s.input := by
  cases s with
  | mk la y inp p =>
    cases inp with
    | nil => exact absurd rfl h
    | cons t rest => rfl

theorem next_pending (s : Cursor) : (next s).pending = upToEOF s.input := by
  cases s with
  | mk la y inp p =>
    cases inp with
    | nil => rfl
    | cons t rest =>
      cases t with
      | mk k l =>
        by_cases h : k = TokenKind.TOK_EOF <;> simp [next, yylex, Cursor.pending, upToEOF, h]

theorem pending_of_ne (s : Cursor) (h : s.lookahead ≠ TokenKind.TOK_EOF) :
    s.pending = ⟨s.lookahead, s.yytext⟩ :: (next s).pending := by
  rw [next_pending]; simp [Cursor.pending, h]

theorem expect_of_eq (msg : String) (s : Cursor) :
    expect s.lookahead msg s = Outcome.ok s.yytext (next s) := by
  simp [expect]

theorem expect_of_ne {k : TokenKind} (msg : String) {s : Cursor} (h : s.lookahead ≠ k) :
    expect k msg s = Outcome.thrown msg s := by
  simp [expect, h]

theorem expect_eq_ok {k : TokenKind} {msg lex : String} {s s' : Cursor}
    (h : expect k msg s = Outcome.ok lex s') :
    s.lookahead = k ∧ lex = s.yytext ∧ s' = next s := by
  unfold expect at h
  split at h
  · rename_i hk
    simp only [Outcome.ok.injEq] at h
    exact ⟨hk, h.1.symm, h.2.symm⟩
  · simp at h

theorem expect_eq_thrown {k : TokenKind} {msg m : String} {s s' : Cursor}
    (h : expect k msg s = Outcome.thrown m s') :
    s.lookahead ≠ k ∧ m = msg ∧ s' = s := by
  unfold expect at h
  split at h
  · simp at h
  · rename_i hk
    simp only [Outcome.thrown.injEq] at h
    exact ⟨hk, h.1.symm, h.2.symm⟩

theorem expect_ne_outOfFuel (k : TokenKind) (msg : String) (s : Cursor) :
    expect k msg s ≠ Outcome.outOfFuel := by
  unfold expect; split <;> simp

/-! ## The procedures, one decision at a time -/

theorem parseAdjectivePhrase_eq (s : Cursor) :
    parseAdjectivePhrase s =
      if s.lookahead ≠ TokenKind.ARTICLE ∧ s.lookahead ≠ TokenKind.POSSESSIVE then
        Outcome.thrown "<adjective phrase> did not start with an article or possessive." s
      else if (next s).lookahead = TokenKind.ADJECTIVE then
        Outcome.ok ⟨detTypeOf s.lookahead, s.yytext, (next s).yytext⟩ (next (next s))
      else
        Outcome.thrown "<adjective phrase> did not have an adjective." (next s) := by
  unfold parseAdjectivePhrase
  by_cases hA : s.lookahead = TokenKind.ARTICLE
  · by_cases hJ : (next s).lookahead = TokenKind.ADJECTIVE <;>
      simp [hA, hJ, expect, detTypeOf]
  · by_cases hP : s.lookahead = TokenKind.POSSESSIVE
    · by_cases hJ : (next s).lookahead = TokenKind.ADJECTIVE <;>
        simp [hP, hJ, expect, detTypeOf]
    · simp [hA, hP]

theorem parseNounPhrase_eq (s : Cursor) :
    parseNounPhrase s =
      if s.lookahead ≠ TokenKind.ARTICLE ∧ s.lookahead ≠ TokenKind.POSSESSIVE then
        Outcome.thrown "<noun phrase> did not start with an article or possessive." s
      else if (next s).lookahead ≠ TokenKind.ADJECTIVE then
        Outcome.thrown "<adjective phrase> did not have an adjective." (next s)
      else if (next (next s)).lookahead ≠ TokenKind.NOUN then
        Outcome.thrown "<noun phrase> did not have a noun." (next (next s))
      else
        Outcome.ok ⟨⟨detTypeOf s.lookahead, s.yytext, (next s).yytext⟩, (next (next s)).yytext⟩
          (next (next (next s))) := by
  unfold parseNounPhrase
  rw [parseAdjectivePhrase_eq]
  by_cases hD : s.lookahead ≠ TokenKind.ARTICLE ∧ s.lookahead ≠ TokenKind.POSSESSIVE
  · simp [hD]
  · by_cases hJ : (next s).lookahead = TokenKind.ADJECTIVE
    · by_cases hN : (next (next s)).lookahead = TokenKind.NOUN <;>
        simp [hD, hJ, hN, expect]
    · simp [hD, hJ]

/-- The adverb loop on a cursor whose current and following tokens are the
adverbs `advs` and then a token `t` that is not an adverb: it stops on `t`
with the lexemes of `advs` appended, in order. -/
theorem adverbLoop_run (advs : List Token) :
    ∀ (fuel : Nat) (acc : List String) (s : Cursor) (t : Token) (rest : List Token),
      s.stream = advs ++ t :: rest → (∀ a ∈ advs, a.kind = TokenKind.ADVERB) →
      t.kind ≠ TokenKind.ADVERB → advs.length < fuel →
      adverbLoop fuel acc s =
        Outcome.ok (acc ++ advs.map Token.lexeme)
          ⟨t.kind, t.lexeme, rest, s.pulls + advs.length⟩ := by
  induction advs with
  | nil =>
    intro fuel acc s t rest hs _ ht hf
    cases fuel with
    | zero => omega
    | succ f =>
      cases s with
      | mk la y inp p =>
        simp only [Cursor.stream, List.nil_append, List.cons.injEq] at hs
        obtain ⟨h1, h2⟩ := hs
        subst h2
        have hla : la = t.kind := by rw [← h1]
        have hy : y = t.lexeme := by rw [← h1]
        subst hla hy
        simp [adverbLoop, ht]
  | cons a as ih =>
    intro fuel acc s t rest hs hadv ht hf
    cases fuel with
    | zero => omega
    | succ f =>
      cases s with
      | mk la y inp p =>
        cases a with
        | mk ak al =>
          simp only [Cursor.stream, List.cons_append, List.cons.injEq, Token.mk.injEq] at hs
          obtain ⟨⟨h1, h3⟩, h2⟩ := hs
          subst h1 h2 h3
          have ha : la = TokenKind.ADVERB := hadv ⟨la, y⟩ (List.mem_cons_self _ _)
          subst ha
          have hst : (next ⟨TokenKind.ADVERB, y, as ++ t :: rest, p⟩).stream = as ++ t :: rest :=
            next_stream _ (by cases as <;> simp)
          have hlen : as.length < f := by
            simp only [List.length_cons] at hf
            omega
          have key := ih f (acc ++ [y]) (next ⟨TokenKind.ADVERB, y, as ++ t :: rest, p⟩) t rest hst
            (fun x hx => hadv x (List.mem_cons_of_mem _ hx)) ht hlen
          simp only [adverbLoop, if_true, expect, bind_ok]
          rw [key]
          simp only [next_pulls, List.map_cons, List.length_cons, List.append_assoc,
            List.singleton_append]
          congr 2
          omega

/-- The adverb loop never throws. -/
theorem adverbLoop_ne_thrown :
    ∀ (fuel : Nat) (acc : List String) (s : Cursor) (m : String) (s' : Cursor),
      adverbLoop fuel acc s ≠ Outcome.thrown m s' := by
  intro fuel
  induction fuel with
  | zero => intro acc s m s'; simp [adverbLoop]
  | succ f ih =>
    intro acc s m s'
    by_cases h : s.lookahead = TokenKind.ADVERB
    · simp only [adverbLoop, h, if_true, expect, bind_ok]
      exact ih _ _ _ _
    · simp [adverbLoop, h]

/-- With the fuel `parseVerbPhrase` gives it, the adverb loop always stops. -/
theorem adverbLoop_ne_outOfFuel :
    ∀ (fuel : Nat) (acc : List String) (s : Cursor),
      1 ≤ fuel → (s.lookahead = TokenKind.ADVERB → s.input.length + 2 ≤ fuel) →
      adverbLoop fuel acc s ≠ Outcome.outOfFuel := by
  intro fuel
  induction fuel with
  | zero => intro acc s h1; omega
  | succ f ih =>
    intro acc s _ h2
    by_cases h : s.lookahead = TokenKind.ADVERB
    · simp only [adverbLoop, h, if_true, expect, bind_ok]
      have hlen := h2 h
      cases s with
      | mk la y inp p =>
        cases inp with
        | nil =>
          apply ih
          · simp at hlen; omega
          · intro hcontra; simp [next, yylex] at hcontra
        | cons t rest =>
          apply ih
          · simp at hlen; omega
          · intro _
            simp only [next, yylex, List.length_cons] at hlen ⊢
            omega
    · simp [adverbLoop, h]

/-- What a normal exit of the adverb loop tells: the tokens it went over are
adverbs, their lexemes were appended in order, and it stopped on a token that
is not an adverb. -/
theorem adverbLoop_eq_ok :
    ∀ (fuel : Nat) (acc : List String) (s : Cursor) (advs : List String) (s' : Cursor),
      adverbLoop fuel acc s = Outcome.ok advs s' →
      ∃ l : List String,
        advs = acc ++ l ∧
        s.pending = l.map (fun x => (⟨TokenKind.ADVERB, x⟩ : Token)) ++ s'.pending ∧
        s'.lookahead ≠ TokenKind.ADVERB ∧ s'.pulls = s.pulls + l.length := by
  intro fuel
  induction fuel with
  | zero => intro acc s advs s' h; simp [adverbLoop] at h
  | succ f ih =>
    intro acc s advs s' h
    by_cases hA : s.lookahead = TokenKind.ADVERB
    · simp only [adverbLoop, hA, if_true, expect, bind_ok] at h
      obtain ⟨l, h1, h2, h3, h4⟩ := ih _ _ _ _ h
      refine ⟨s.yytext :: l, ?_, ?_, h3, ?_⟩
      · simp [h1]
      · rw [pending_of_ne s (by rw [hA]; decide), h2, hA]
        simp
      · simp only [next_pulls] at h4
        simp only [List.length_cons, h4]
        omega
    · simp only [adverbLoop, hA, if_false, Outcome.ok.injEq] at h
      obtain ⟨h1, h2⟩ := h
      subst h1 h2
      exact ⟨[], by simp, by simp, hA, by simp⟩

/-- The verb phrase on a cursor whose current and following tokens are the
adverbs `advs` and then the verb `v`. -/
theorem parseVerbPhrase_run (s : Cursor) (advs : List Token) (v : Token) (rest : List Token)
    (hs : s.stream = advs ++ v :: rest) (hadv : ∀ a ∈ advs, a.kind = TokenKind.ADVERB)
    (hv : v.kind = TokenKind.VERB) :
    parseVerbPhrase s =
      Outcome.ok ⟨advs.map Token.lexeme, v.lexeme⟩
        (next ⟨v.kind, v.lexeme, rest, s.pulls + advs.length⟩) := by
  have hfirst : ¬ (s.lookahead ≠ TokenKind.VERB ∧ s.lookahead ≠ TokenKind.ADVERB) := by
    cases advs with
    | nil =>
      simp only [Cursor.stream, List.nil_append, List.cons.injEq] at hs
      have : s.lookahead = v.kind := by rw [← hs.1]
      simp [this, hv]
    | cons a as =>
      simp only [Cursor.stream, List.cons_append, List.cons.injEq] at hs
      have : s.lookahead = a.kind := by rw [← hs.1]
      simp [this, hadv a (List.mem_cons_self _ _)]
  have hlen : advs.length < s.input.length + 2 := by
    have := congrArg List.length hs
    simp [Cursor.stream] at this
    omega
  have hloop := adverbLoop_run advs (s.input.length + 2) [] s v rest hs hadv
    (by rw [hv]; decide) hlen
  unfold parseVerbPhrase
  rw [if_neg hfirst, hloop]
  simp [expect, hv]

theorem parseVerbPhrase_eq_ok {s : Cursor} {vp : VerbPhrase} {s' : Cursor}
    (h : parseVerbPhrase s = Outcome.ok vp s') :
    s.pending = vp.adverbs.map (fun x => (⟨TokenKind.ADVERB, x⟩ : Token))
        ++ ⟨TokenKind.VERB, vp.verbLexeme⟩ :: s'.pending ∧
      s'.pulls = s.pulls + vp.adverbs.length + 1 := by
  unfold parseVerbPhrase at h
  split at h
  · simp at h
  · obtain ⟨advs, s1, h1, h2⟩ := bind_eq_ok h
    obtain ⟨lex, s2, h3, h4⟩ := bind_eq_ok h2
    obtain ⟨l, e1, e2, _, e4⟩ := adverbLoop_eq_ok _ _ _ _ _ h1
    obtain ⟨k1, k2, k3⟩ := expect_eq_ok h3
    simp only [Outcome.ok.injEq] at h4
    obtain ⟨h5, h6⟩ := h4
    subst h5 h6 k2 k3
    simp only [List.nil_append] at e1
    subst e1
    refine ⟨?_, ?_⟩
    · rw [e2, pending_of_ne s1 (by rw [k1]; decide), k1]
    · simp only [next_pulls, e4]

theorem parseVerbPhrase_eq_thrown {s : Cursor} {m : String} {s' : Cursor}
    (h : parseVerbPhrase s = Outcome.thrown m s') :
    m = "<verb phrase> did not start with a verb or an adverb." := by
  unfold parseVerbPhrase at h
  split at h
  · simp only [Outcome.thrown.injEq] at h
    exact h.1.symm
  · rcases bind_eq_thrown h with h1 | ⟨advs, s1, _, h2⟩
    · exact absurd h1 (adverbLoop_ne_thrown _ _ _ _ _)
    · rcases bind_eq_thrown h2 with h3 | ⟨lex, s2, _, h4⟩
      · exact (expect_eq_thrown h3).2.1
      · simp at h4

theorem parseVerbPhrase_ne_outOfFuel (s : Cursor) : parseVerbPhrase s ≠ Outcome.outOfFuel := by
  intro h
  unfold parseVerbPhrase at h
  split at h
  · simp at h
  · rcases bind_eq_outOfFuel h with h1 | ⟨advs, s1, _, h2⟩
    · exact adverbLoop_ne_outOfFuel _ _ _ (by omega) (fun _ => le_refl _) h1
    · rcases bind_eq_outOfFuel h2 with h3 | ⟨lex, s2, _, h4⟩
      · exact expect_ne_outOfFuel _ _ _ h3
      · simp at h4

theorem parseNounPhrase_eq_ok {s : Cursor} {np : NounPhrase} {s' : Cursor}
    (h : parseNounPhrase s = Outcome.ok np s') :
    (s.lookahead = TokenKind.ARTICLE ∨ s.lookahead = TokenKind.POSSESSIVE) ∧
      np.adj.detType = detTypeOf s.lookahead ∧
      s.pending = ⟨s.lookahead, np.adj.detLexeme⟩ :: ⟨TokenKind.ADJECTIVE, np.adj.adjLexeme⟩
        :: ⟨TokenKind.NOUN, np.nounLexeme⟩ :: s'.pending ∧
      s'.pulls = s.pulls + 3 := by
  rw [parseNounPhrase_eq] at h
  split at h
  · simp at h
  · rename_i hD
    split at h
    · simp at h
    · rename_i hJ
      split at h
      · simp at h
      · rename_i hN
        simp only [ne_eq, not_not] at hJ hN
        simp only [Outcome.ok.injEq] at h
        obtain ⟨h1, h2⟩ := h
        subst h1 h2
        have hD' : s.lookahead = TokenKind.ARTICLE ∨ s.lookahead = TokenKind.POSSESSIVE := by
          by_contra hc
          exact hD ⟨fun h => hc (Or.inl h), fun h => hc (Or.inr h)⟩
        refine ⟨hD', rfl, ?_, by simp⟩
        rw [pending_of_ne s (by rcases hD' with h | h <;> rw [h] <;> decide),
          pending_of_ne (next s) (by rw [hJ]; decide),
          pending_of_ne (next (next s)) (by rw [hN]; decide), hJ, hN]

theorem parseNounPhrase_eq_thrown {s : Cursor} {m : String} {s' : Cursor}
    (h : parseNounPhrase s = Outcome.thrown m s') :
    m = "<noun phrase> did not start with an article or possessive." ∨
      m = "<adjective phrase> did not have an adjective." ∨
      m = "<noun phrase> did not have a noun." := by
  rw [parseNounPhrase_eq] at h
  split at h
  · simp only [Outcome.thrown.injEq] at h
    exact Or.inl h.1.symm
  · split at h
    · simp only [Outcome.thrown.injEq] at h
      exact Or.inr (Or.inl h.1.symm)
    · split at h
      · simp only [Outcome.thrown.injEq] at h
        exact Or.inr (Or.inr h.1.symm)
      · simp at h

theorem parseNounPhrase_ne_outOfFuel (s : Cursor) : parseNounPhrase s ≠ Outcome.outOfFuel := by
  rw [parseNounPhrase_eq]
  split
  · simp
  · split
    · simp
    · split <;> simp

theorem parseSentence_eq_ok {s : Cursor} {t : Sentence} {s' : Cursor}
    (h : parseSentence s = Outcome.ok t s') :
    ∃ d2 : TokenKind,
      (s.lookahead = TokenKind.ARTICLE ∨ s.lookahead = TokenKind.POSSESSIVE) ∧
      (d2 = TokenKind.ARTICLE ∨ d2 = TokenKind.POSSESSIVE) ∧
      t.subjectNP.adj.detType = detTypeOf s.lookahead ∧
      t.objectNP.adj.detType = detTypeOf d2 ∧
      s.pending =
        [⟨s.lookahead, t.subjectNP.adj.detLexeme⟩, ⟨TokenKind.ADJECTIVE, t.subjectNP.adj.adjLexeme⟩,
          ⟨TokenKind.NOUN, t.subjectNP.nounLexeme⟩]
        ++ t.verbP.adverbs.map (fun x => (⟨TokenKind.ADVERB, x⟩ : Token))
        ++ [⟨TokenKind.VERB, t.verbP.verbLexeme⟩, ⟨d2, t.objectNP.adj.detLexeme⟩,
          ⟨TokenKind.ADJECTIVE, t.objectNP.adj.adjLexeme⟩, ⟨TokenKind.NOUN, t.objectNP.nounLexeme⟩]
        ++ s'.pending ∧
      s'.pulls = s.pulls + 7 + t.verbP.adverbs.length := by
  unfold parseSentence at h
  split at h
  · simp at h
  · obtain ⟨np1, s1, h1, h2⟩ := bind_eq_ok h
    obtain ⟨vp, s2, h3, h4⟩ := bind_eq_ok h2
    obtain ⟨np2, s3, h5, h6⟩ := bind_eq_ok h4
    simp only [Outcome.ok.injEq] at h6
    obtain ⟨h7, h8⟩ := h6
    subst h7 h8
    obtain ⟨a1, a2, a3, a4⟩ := parseNounPhrase_eq_ok h1
    obtain ⟨b1, b2⟩ := parseVerbPhrase_eq_ok h3
    obtain ⟨c1, c2, c3, c4⟩ := parseNounPhrase_eq_ok h5
    refine ⟨s2.lookahead, a1, c1, a2, c2, ?_, ?_⟩
    · rw [a3, b1, c3]
      simp
    · simp only [c4, b2, a4]
      omega

theorem parseSentence_eq_thrown {s : Cursor} {m : String} {s' : Cursor}
    (h : parseSentence s = Outcome.thrown m s') :
    m = "<sentence> did not start with an article or possessive." ∨
      m = "<noun phrase> did not start with an article or possessive." ∨
      m = "<adjective phrase> did not have an adjective." ∨
      m = "<noun phrase> did not have a noun." ∨
      m = "<verb phrase> did not start with a verb or an adverb." := by
  unfold parseSentence at h
  split at h
  · simp only [Outcome.thrown.injEq] at h
    exact Or.inl h.1.symm
  · rcases bind_eq_thrown h with h1 | ⟨np1, s1, _, h2⟩
    · rcases parseNounPhrase_eq_thrown h1 with e | e | e <;> simp [e]
    · rcases bind_eq_thrown h2 with h3 | ⟨vp, s2, _, h4⟩
      · simp [parseVerbPhrase_eq_thrown h3]
      · rcases bind_eq_thrown h4 with h5 | ⟨np2, s3, _, h6⟩
        · rcases parseNounPhrase_eq_thrown h5 with e | e | e <;> simp [e]
        · simp at h6

theorem parseSentence_ne_outOfFuel (s : Cursor) : parseSentence s ≠ Outcome.outOfFuel := by
  intro h
  unfold parseSentence at h
  split at h
  · simp at h
  · rcases bind_eq_outOfFuel h with h1 | ⟨np1, s1, _, h2⟩
    · exact parseNounPhrase_ne_outOfFuel _ h1
    · rcases bind_eq_outOfFuel h2 with h3 | ⟨vp, s2, _, h4⟩
      · exact parseVerbPhrase_ne_outOfFuel _ h3
      · rcases bind_eq_outOfFuel h4 with h5 | ⟨np2, s3, _, h6⟩
        · exact parseNounPhrase_ne_outOfFuel _ h5
        · simp at h6

/-- The sentence procedure on a cursor standing on the determiner of a
well-formed sentence. -/
theorem parseSentence_run (d1 a1 n1 : Token) (advs : List Token) (v d2 a2 n2 : Token)
    (rest : List Token) (p : Nat)
    (hd1 : d1.kind = TokenKind.ARTICLE ∨ d1.kind = TokenKind.POSSESSIVE)
    (ha1 : a1.kind = TokenKind.ADJECTIVE) (hn1 : n1.kind = TokenKind.NOUN)
    (hadv : ∀ a ∈ advs, a.kind = TokenKind.ADVERB) (hv : v.kind = TokenKind.VERB)
    (hd2 : d2.kind = TokenKind.ARTICLE ∨ d2.kind = TokenKind.POSSESSIVE)
    (ha2 : a2.kind = TokenKind.ADJECTIVE) (hn2 : n2.kind = TokenKind.NOUN) :
    parseSentence ⟨d1.kind, d1.lexeme, a1 :: n1 :: (advs ++ v :: d2 :: a2 :: n2 :: rest), p⟩ =
      Outcome.ok
        ⟨⟨⟨detTypeOf d1.kind, d1.lexeme, a1.lexeme⟩, n1.lexeme⟩,
          ⟨advs.map Token.lexeme, v.lexeme⟩,
          ⟨⟨detTypeOf d2.kind, d2.lexeme, a2.lexeme⟩, n2.lexeme⟩⟩
        (next ⟨n2.kind, n2.lexeme, rest, p + 6 + advs.length⟩) := by
  have hD1 : ¬ (d1.kind ≠ TokenKind.ARTICLE ∧ d1.kind ≠ TokenKind.POSSESSIVE) := by
    rcases hd1 with h | h <;> simp [h]
  have hD2 : ¬ (d2.kind ≠ TokenKind.ARTICLE ∧ d2.kind ≠ TokenKind.POSSESSIVE) := by
    rcases hd2 with h | h <;> simp [h]
  have hst : (next ⟨n1.kind, n1.lexeme, advs ++ v :: d2 :: a2 :: n2 :: rest, p + 1 + 1⟩).stream
      = advs ++ v :: d2 :: a2 :: n2 :: rest :=
    next_stream _ (by cases advs <;> simp)
  have hvp := parseVerbPhrase_run _ advs v (d2 :: a2 :: n2 :: rest) hst hadv hv
  rw [hn1] at hvp
  unfold parseSentence
  rw [if_neg hD1, parseNounPhrase_eq]
  simp only [next_cons, if_neg hD1, ha1, hn1, ne_eq, not_true_eq_false, if_false, bind_ok]
  rw [hvp]
  simp only [next_cons, bind_ok, next_pulls, parseNounPhrase_eq, if_neg hD2, ha2, hn2, ne_eq,
    not_true_eq_false, if_false]
  have hp : p + 1 + 1 + 1 + advs.length + 1 + 1 + 1 = p + 6 + advs.length := by omega
  rw [hp]

theorem parseStart_eq_thrown {s : Cursor} {m : String} {s' : Cursor}
    (h : parseStart s = Outcome.thrown m s') : m ∈ parserMessages := by
  unfold parseStart at h
  rcases bind_eq_thrown h with h1 | ⟨t, s1, _, h2⟩
  · rcases parseSentence_eq_thrown h1 with e | e | e | e | e <;> simp [e, parserMessages]
  · split at h2
    · simp only [Outcome.thrown.injEq] at h2
      simp [← h2.1, parserMessages]
    · simp at h2

theorem parseStart_ne_outOfFuel (s : Cursor) : parseStart s ≠ Outcome.outOfFuel := by
  intro h
  unfold parseStart at h
  rcases bind_eq_outOfFuel h with h1 | ⟨t, s1, _, h2⟩
  · exact parseSentence_ne_outOfFuel _ h1
  · split at h2 <;> simp at h2

theorem parseStart_eq_ok {s : Cursor} {t : Sentence} {s' : Cursor}
    (h : parseStart s = Outcome.ok t s') :
    ∃ d1 d2 : TokenKind,
      (d1 = TokenKind.ARTICLE ∨ d1 = TokenKind.POSSESSIVE) ∧
      (d2 = TokenKind.ARTICLE ∨ d2 = TokenKind.POSSESSIVE) ∧
      upToEOF s.input =
        [⟨d1, t.subjectNP.adj.detLexeme⟩, ⟨TokenKind.ADJECTIVE, t.subjectNP.adj.adjLexeme⟩,
          ⟨TokenKind.NOUN, t.subjectNP.nounLexeme⟩]
        ++ t.verbP.adverbs.map (fun x => (⟨TokenKind.ADVERB, x⟩ : Token))
        ++ [⟨TokenKind.VERB, t.verbP.verbLexeme⟩, ⟨d2, t.objectNP.adj.detLexeme⟩,
          ⟨TokenKind.ADJECTIVE, t.objectNP.adj.adjLexeme⟩, ⟨TokenKind.NOUN, t.objectNP.nounLexeme⟩,
          ⟨TokenKind.TOK_EOF, s'.yytext⟩] := by
  unfold parseStart at h
  obtain ⟨t1, s1, h1, h2⟩ := bind_eq_ok h
  split at h2
  · simp at h2
  · rename_i hE
    simp only [ne_eq, not_not] at hE
    simp only [Outcome.ok.injEq] at h2
    obtain ⟨h3, h4⟩ := h2
    subst h3 h4
    obtain ⟨d2, a1, a2, _, _, a5, _⟩ := parseSentence_eq_ok h1
    refine ⟨(next s).lookahead, d2, a1, a2, ?_⟩
    rw [← next_pending, a5]
    simp [Cursor.pending, hE]

theorem upToEOF_append (pre l : List Token) (h : ∀ x ∈ pre, x.kind ≠ TokenKind.TOK_EOF) :
    upToEOF (pre ++ l) = pre ++ upToEOF l := by
  induction pre with
  | nil => rfl
  | cons x xs ih =>
    have hx : x.kind ≠ TokenKind.TOK_EOF := h x (List.mem_cons_self _ _)
    simp only [List.cons_append, upToEOF, hx, if_false, List.cons.injEq, true_and]
    exact ih (fun y hy => h y (List.mem_cons_of_mem _ hy))

/-- The entry point on a stream that starts with a well-formed sentence: the
tree, and the cursor left on the token that follows the sentence. -/
theorem parseStart_sentence_then (la : TokenKind) (y : String) (p : Nat)
    (d1 a1 n1 : Token) (advs : List Token) (v d2 a2 n2 t : Token) (rest : List Token)
    (hd1 : d1.kind = TokenKind.ARTICLE ∨ d1.kind = TokenKind.POSSESSIVE)
    (ha1 : a1.kind = TokenKind.ADJECTIVE) (hn1 : n1.kind = TokenKind.NOUN)
    (hadv : ∀ a ∈ advs, a.kind = TokenKind.ADVERB) (hv : v.kind = TokenKind.VERB)
    (hd2 : d2.kind = TokenKind.ARTICLE ∨ d2.kind = TokenKind.POSSESSIVE)
    (ha2 : a2.kind = TokenKind.ADJECTIVE) (hn2 : n2.kind = TokenKind.NOUN) :
    parseStart ⟨la, y, [d1, a1, n1] ++ advs ++ [v, d2, a2, n2] ++ t :: rest, p⟩ =
      if t.kind ≠ TokenKind.TOK_EOF then
        Outcome.thrown "Extra input after complete sentence."
          ⟨t.kind, t.lexeme, rest, p + 8 + advs.length⟩
      else
        Outcome.ok
          ⟨⟨⟨detTypeOf d1.kind, d1.lexeme, a1.lexeme⟩, n1.lexeme⟩,
            ⟨advs.map Token.lexeme, v.lexeme⟩,
            ⟨⟨detTypeOf d2.kind, d2.lexeme, a2.lexeme⟩, n2.lexeme⟩⟩
          ⟨t.kind, t.lexeme, rest, p + 8 + advs.length⟩ := by
  have hrun := parseSentence_run d1 a1 n1 advs v d2 a2 n2 (t :: rest) (p + 1)
    hd1 ha1 hn1 hadv hv hd2 ha2 hn2
  have hin : [d1, a1, n1] ++ advs ++ [v, d2, a2, n2] ++ t :: rest
      = d1 :: a1 :: n1 :: (advs ++ v :: d2 :: a2 :: n2 :: t :: rest) := by simp
  have hp : p + 1 + 6 + advs.length + 1 = p + 8 + advs.length := by omega
  unfold parseStart
  rw [hin, next_cons, hrun, bind_ok, next_cons, hp]

/-! ## The claims -/

/-- C1. On a token stream of the shape determiner, adjective, noun, any number
of adverbs, verb, determiner, adjective, noun, end-of-input marker (whatever
follows the marker, whatever the lexemes), `parseStart` returns a sentence tree
whose lexemes in traversal order are the lexemes of the input tokens before
the marker. The tree itself is given: each node holds the lexemes of its own
tokens. -/
theorem parseStart_accepts_sentence (la : TokenKind) (y : String) (p : Nat)
    (d1 a1 n1 : Token) (advs : List Token) (v d2 a2 n2 e : Token) (rest : List Token)
    (hd1 : d1.kind = TokenKind.ARTICLE ∨ d1.kind = TokenKind.POSSESSIVE)
    (ha1 : a1.kind = TokenKind.ADJECTIVE) (hn1 : n1.kind = TokenKind.NOUN)
    (hadv : ∀ a ∈ advs, a.kind = TokenKind.ADVERB) (hv : v.kind = TokenKind.VERB)
    (hd2 : d2.kind = TokenKind.ARTICLE ∨ d2.kind = TokenKind.POSSESSIVE)
    (ha2 : a2.kind = TokenKind.ADJECTIVE) (hn2 : n2.kind = TokenKind.NOUN)
    (he : e.kind = TokenKind.TOK_EOF) :
    ∃ (tree : Sentence) (s' : Cursor),
      parseStart ⟨la, y, [d1, a1, n1] ++ advs ++ [v, d2, a2, n2] ++ e :: rest, p⟩
        = Outcome.ok tree s' ∧
      tree = ⟨⟨⟨detTypeOf d1.kind, d1.lexeme, a1.lexeme⟩, n1.lexeme⟩,
              ⟨advs.map Token.lexeme, v.lexeme⟩,
              ⟨⟨detTypeOf d2.kind, d2.lexeme, a2.lexeme⟩, n2.lexeme⟩⟩ ∧
      tree.lexemes = ([d1, a1, n1] ++ advs ++ [v, d2, a2, n2]).map Token.lexeme := by
  refine ⟨_, ⟨e.kind, e.lexeme, rest, p + 8 + advs.length⟩, ?_, rfl, ?_⟩
  · rw [parseStart_sentence_then la y p d1 a1 n1 advs v d2 a2 n2 e rest
      hd1 ha1 hn1 hadv hv hd2 ha2 hn2]
    simp only [he, ne_eq, not_true_eq_false, if_false]
  · simp [Sentence.lexemes]

/-- C1 at Example 1 of the specification: "the quick fox jumps the lazy dog". -/
theorem parseStart_accepts_sentence_witness :
    ∃ (tree : Sentence) (s' : Cursor),
      parseStart ⟨TokenKind.TOK_EOF, "",
        [Token.mk TokenKind.ARTICLE "the", Token.mk TokenKind.ADJECTIVE "quick",
          Token.mk TokenKind.NOUN "fox"]
          ++ [] ++ [Token.mk TokenKind.VERB "jumps", Token.mk TokenKind.ARTICLE "the",
            Token.mk TokenKind.ADJECTIVE "lazy", Token.mk TokenKind.NOUN "dog"]
          ++ Token.mk TokenKind.TOK_EOF "" :: [], 0⟩
        = Outcome.ok tree s' ∧
      tree = ⟨⟨⟨detTypeOf TokenKind.ARTICLE, "the", "quick"⟩, "fox"⟩,
              ⟨([] : List Token).map Token.lexeme, "jumps"⟩,
              ⟨⟨detTypeOf TokenKind.ARTICLE, "the", "lazy"⟩, "dog"⟩⟩ ∧
      tree.lexemes =
        ([Token.mk TokenKind.ARTICLE "the", Token.mk TokenKind.ADJECTIVE "quick",
          Token.mk TokenKind.NOUN "fox"]
          ++ [] ++ [Token.mk TokenKind.VERB "jumps", Token.mk TokenKind.ARTICLE "the",
            Token.mk TokenKind.ADJECTIVE "lazy", Token.mk TokenKind.NOUN "dog"]).map
          Token.lexeme :=
  parseStart_accepts_sentence TokenKind.TOK_EOF "" 0
    ⟨TokenKind.ARTICLE, "the"⟩ ⟨TokenKind.ADJECTIVE, "quick"⟩ ⟨TokenKind.NOUN, "fox"⟩ []
    ⟨TokenKind.VERB, "jumps"⟩ ⟨TokenKind.ARTICLE, "the"⟩ ⟨TokenKind.ADJECTIVE, "lazy"⟩
    ⟨TokenKind.NOUN, "dog"⟩ ⟨TokenKind.TOK_EOF, ""⟩ []
    (Or.inl rfl) rfl rfl (by simp) rfl (Or.inl rfl) rfl rfl rfl

/-- C2. When `parseStart` succeeds, the tokens the source delivers up to and
including the first end-of-input marker are a determiner, an adjective, a noun,
adverbs, a verb, a determiner, an adjective, a noun and the marker, and nothing
else; they carry the lexemes of the returned tree. -/
theorem parseStart_ok_only_sentence (s : Cursor) (tree : Sentence) (s' : Cursor)
    (h : parseStart s = Outcome.ok tree s') :
    ∃ d1 d2 : TokenKind,
      (d1 = TokenKind.ARTICLE ∨ d1 = TokenKind.POSSESSIVE) ∧
      (d2 = TokenKind.ARTICLE ∨ d2 = TokenKind.POSSESSIVE) ∧
      upToEOF s.input =
        [⟨d1, tree.subjectNP.adj.detLexeme⟩, ⟨TokenKind.ADJECTIVE, tree.subjectNP.adj.adjLexeme⟩,
          ⟨TokenKind.NOUN, tree.subjectNP.nounLexeme⟩]
        ++ tree.verbP.adverbs.map (fun x => (⟨TokenKind.ADVERB, x⟩ : Token))
        ++ [⟨TokenKind.VERB, tree.verbP.verbLexeme⟩, ⟨d2, tree.objectNP.adj.detLexeme⟩,
          ⟨TokenKind.ADJECTIVE, tree.objectNP.adj.adjLexeme⟩,
          ⟨TokenKind.NOUN, tree.objectNP.nounLexeme⟩, ⟨TokenKind.TOK_EOF, s'.yytext⟩] :=
  parseStart_eq_ok h

/-- C2 at "her old car quickly stops the new bus" followed by the marker and a
stray token after it. -/
theorem parseStart_ok_only_sentence_witness :
    ∃ d1 d2 : TokenKind,
      (d1 = TokenKind.ARTICLE ∨ d1 = TokenKind.POSSESSIVE) ∧
      (d2 = TokenKind.ARTICLE ∨ d2 = TokenKind.POSSESSIVE) ∧
      upToEOF [⟨TokenKind.POSSESSIVE, "her"⟩, ⟨TokenKind.ADJECTIVE, "old"⟩,
          ⟨TokenKind.NOUN, "car"⟩, ⟨TokenKind.ADVERB, "quickly"⟩, ⟨TokenKind.VERB, "stops"⟩,
          ⟨TokenKind.ARTICLE, "the"⟩, ⟨TokenKind.ADJECTIVE, "new"⟩, ⟨TokenKind.NOUN, "bus"⟩,
          ⟨TokenKind.TOK_EOF, ""⟩, ⟨TokenKind.NOUN, "cat"⟩] =
        [⟨d1, "her"⟩, ⟨TokenKind.ADJECTIVE, "old"⟩, ⟨TokenKind.NOUN, "car"⟩]
        ++ ["quickly"].map (fun x => (⟨TokenKind.ADVERB, x⟩ : Token))
        ++ [⟨TokenKind.VERB, "stops"⟩, ⟨d2, "the"⟩, ⟨TokenKind.ADJECTIVE, "new"⟩,
          ⟨TokenKind.NOUN, "bus"⟩, ⟨TokenKind.TOK_EOF, ""⟩] :=
  parseStart_ok_only_sentence
    ⟨TokenKind.TOK_EOF, "", [⟨TokenKind.POSSESSIVE, "her"⟩, ⟨TokenKind.ADJECTIVE, "old"⟩,
      ⟨TokenKind.NOUN, "car"⟩, ⟨TokenKind.ADVERB, "quickly"⟩, ⟨TokenKind.VERB, "stops"⟩,
      ⟨TokenKind.ARTICLE, "the"⟩, ⟨TokenKind.ADJECTIVE, "new"⟩, ⟨TokenKind.NOUN, "bus"⟩,
      ⟨TokenKind.TOK_EOF, ""⟩, ⟨TokenKind.NOUN, "cat"⟩], 0⟩
    ⟨⟨⟨DetType.Possessive, "her", "old"⟩, "car"⟩, ⟨["quickly"], "stops"⟩,
      ⟨⟨DetType.Article, "the", "new"⟩, "bus"⟩⟩
    ⟨TokenKind.TOK_EOF, "", [⟨TokenKind.NOUN, "cat"⟩], 9⟩
    (by decide)

/-- C3. When the first token the source delivers is neither ARTICLE nor
POSSESSIVE (an exhausted source delivers the end-of-input marker), `parseStart`
throws the message of the FIRST check of `parseSentence`, with only the priming
token pulled, whatever follows. -/
theorem parseStart_bad_first_token (s : Cursor)
    (h : (yylex s.input).1.kind ≠ TokenKind.ARTICLE ∧
      (yylex s.input).1.kind ≠ TokenKind.POSSESSIVE) :
    parseStart s =
      Outcome.thrown "<sentence> did not start with an article or possessive." (next s) := by
  have h' : (next s).lookahead ≠ TokenKind.ARTICLE ∧ (next s).lookahead ≠ TokenKind.POSSESSIVE := h
  unfold parseStart parseSentence
  rw [if_pos h', bind_thrown]

/-- C3 at Example 3 of the specification, a stream that starts with a noun. -/
theorem parseStart_bad_first_token_witness :
    parseStart ⟨TokenKind.TOK_EOF, "",
        [⟨TokenKind.NOUN, "fox"⟩, ⟨TokenKind.VERB, "jumps"⟩, ⟨TokenKind.TOK_EOF, ""⟩], 0⟩ =
      Outcome.thrown "<sentence> did not start with an article or possessive."
        (next ⟨TokenKind.TOK_EOF, "",
          [⟨TokenKind.NOUN, "fox"⟩, ⟨TokenKind.VERB, "jumps"⟩, ⟨TokenKind.TOK_EOF, ""⟩], 0⟩) :=
  parseStart_bad_first_token _ (by decide)

/-- C4. On a stream made of a well-formed sentence followed by a token that is
not the end-of-input marker, `parseStart` throws the message of its own
end-of-input check, with the cursor on that token; it does not return the tree
of the leading sentence. -/
theorem parseStart_extra_input (la : TokenKind) (y : String) (p : Nat)
    (d1 a1 n1 : Token) (advs : List Token) (v d2 a2 n2 t : Token) (rest : List Token)
    (hd1 : d1.kind = TokenKind.ARTICLE ∨ d1.kind = TokenKind.POSSESSIVE)
    (ha1 : a1.kind = TokenKind.ADJECTIVE) (hn1 : n1.kind = TokenKind.NOUN)
    (hadv : ∀ a ∈ advs, a.kind = TokenKind.ADVERB) (hv : v.kind = TokenKind.VERB)
    (hd2 : d2.kind = TokenKind.ARTICLE ∨ d2.kind = TokenKind.POSSESSIVE)
    (ha2 : a2.kind = TokenKind.ADJECTIVE) (hn2 : n2.kind = TokenKind.NOUN)
    (ht : t.kind ≠ TokenKind.TOK_EOF) :
    parseStart ⟨la, y, [d1, a1, n1] ++ advs ++ [v, d2, a2, n2] ++ t :: rest, p⟩ =
      Outcome.thrown "Extra input after complete sentence."
        ⟨t.kind, t.lexeme, rest, p + 8 + advs.length⟩ := by
  rw [parseStart_sentence_then la y p d1 a1 n1 advs v d2 a2 n2 t rest
    hd1 ha1 hn1 hadv hv hd2 ha2 hn2, if_pos ht]

/-- C4 at Example 4 of the specification: a sentence, then an extra noun
before the marker. -/
theorem parseStart_extra_input_witness :
    parseStart ⟨TokenKind.TOK_EOF, "",
        [Token.mk TokenKind.ARTICLE "the", Token.mk TokenKind.ADJECTIVE "quick",
          Token.mk TokenKind.NOUN "fox"]
          ++ [Token.mk TokenKind.ADVERB "often"]
          ++ [Token.mk TokenKind.VERB "jumps", Token.mk TokenKind.POSSESSIVE "my",
            Token.mk TokenKind.ADJECTIVE "lazy", Token.mk TokenKind.NOUN "dog"]
          ++ Token.mk TokenKind.NOUN "cat" :: [Token.mk TokenKind.TOK_EOF ""], 0⟩ =
      Outcome.thrown "Extra input after complete sentence."
        ⟨TokenKind.NOUN, "cat", [Token.mk TokenKind.TOK_EOF ""],
          0 + 8 + [Token.mk TokenKind.ADVERB "often"].length⟩ :=
  parseStart_extra_input TokenKind.TOK_EOF "" 0
    ⟨TokenKind.ARTICLE, "the"⟩ ⟨TokenKind.ADJECTIVE, "quick"⟩ ⟨TokenKind.NOUN, "fox"⟩
    [⟨TokenKind.ADVERB, "often"⟩]
    ⟨TokenKind.VERB, "jumps"⟩ ⟨TokenKind.POSSESSIVE, "my"⟩ ⟨TokenKind.ADJECTIVE, "lazy"⟩
    ⟨TokenKind.NOUN, "dog"⟩ ⟨TokenKind.NOUN, "cat"⟩ [⟨TokenKind.TOK_EOF, ""⟩]
    (Or.inl rfl) rfl rfl (by simp) rfl (Or.inr rfl) rfl rfl (by decide)

/-- C5, as the specification words it, fails: on a stream that starts with a
noun `parseStart` throws a message that names the nonterminal in angle
brackets, and that text is none of the specification's fourteen spellings. -/
theorem parseStart_message_not_spec_wording :
    parseStart ⟨TokenKind.TOK_EOF, "", [⟨TokenKind.NOUN, "fox"⟩, ⟨TokenKind.TOK_EOF, ""⟩], 0⟩ =
        Outcome.thrown "<sentence> did not start with an article or possessive."
          ⟨TokenKind.NOUN, "fox", [⟨TokenKind.TOK_EOF, ""⟩], 1⟩ ∧
      "<sentence> did not start with an article or possessive." ∉ specMessages := by
  constructor
  · decide
  · decide

/-- C5, amended. Every exception of `parseStart` carries one of the seven
messages of `parser.cpp`, in the source's own text: the nonterminal in angle
brackets, a final period, "Extra" capitalised. -/
theorem parseStart_message_in_parserMessages (s : Cursor) (msg : String) (s' : Cursor)
    (h : parseStart s = Outcome.thrown msg s') : msg ∈ parserMessages :=
  parseStart_eq_thrown h

/-- C5 amended, at a sentence whose object noun is missing. -/
theorem parseStart_message_in_parserMessages_witness :
    "<noun phrase> did not have a noun." ∈ parserMessages :=
  parseStart_message_in_parserMessages
    ⟨TokenKind.TOK_EOF, "", [⟨TokenKind.ARTICLE, "the"⟩, ⟨TokenKind.ADJECTIVE, "quick"⟩,
      ⟨TokenKind.NOUN, "fox"⟩, ⟨TokenKind.VERB, "jumps"⟩, ⟨TokenKind.ARTICLE, "the"⟩,
      ⟨TokenKind.ADJECTIVE, "lazy"⟩, ⟨TokenKind.TOK_EOF, ""⟩], 0⟩
    "<noun phrase> did not have a noun."
    ⟨TokenKind.TOK_EOF, "", [], 7⟩
    (by decide)

/-- C6. The result of `parseStart`, tree or exception and the cursor left
behind, does not depend on the values `lookahead` and `yytext` hold when it is
called: it is determined by the tokens the source delivers. -/
theorem parseStart_ignores_initial_lookahead (la1 la2 : TokenKind) (y1 y2 : String)
    (tokens : List Token) (p : Nat) :
    parseStart ⟨la1, y1, tokens, p⟩ = parseStart ⟨la2, y2, tokens, p⟩ := by
  unfold parseStart
  rfl

/-- C7. On a cursor whose current and following tokens are the adverbs `advs`
(none allowed) and then a verb `v`, `parseVerbPhrase` returns the node with the
lexemes of `advs` in order and the lexeme of `v`; it has pulled one token per
adverb and one for the verb, and the cursor is on the token the source
delivers after the verb. -/
theorem parseVerbPhrase_adverbs_then_verb (s : Cursor) (advs : List Token) (v : Token)
    (rest : List Token)
    (hs : s.stream = advs ++ v :: rest) (hadv : ∀ a ∈ advs, a.kind = TokenKind.ADVERB)
    (hv : v.kind = TokenKind.VERB) :
    ∃ s' : Cursor,
      parseVerbPhrase s = Outcome.ok ⟨advs.map Token.lexeme, v.lexeme⟩ s' ∧
      s'.lookahead = (yylex rest).1.kind ∧ s'.yytext = (yylex rest).1.lexeme ∧
      s'.input = rest.tail ∧ s'.pulls = s.pulls + advs.length + 1 := by
  refine ⟨next ⟨v.kind, v.lexeme, rest, s.pulls + advs.length⟩,
    parseVerbPhrase_run s advs v rest hs hadv hv, rfl, rfl, ?_, rfl⟩
  rw [next_input]

/-- C7 at Example 2 of the specification: "quickly silently stops". -/
theorem parseVerbPhrase_adverbs_then_verb_witness :
    ∃ s' : Cursor,
      parseVerbPhrase ⟨TokenKind.ADVERB, "quickly",
          [⟨TokenKind.ADVERB, "silently"⟩, ⟨TokenKind.VERB, "stops"⟩,
            ⟨TokenKind.ARTICLE, "the"⟩], 4⟩ =
        Outcome.ok ⟨[Token.mk TokenKind.ADVERB "quickly",
            Token.mk TokenKind.ADVERB "silently"].map Token.lexeme, "stops"⟩ s' ∧
      s'.lookahead = (yylex [Token.mk TokenKind.ARTICLE "the"]).1.kind ∧
      s'.yytext = (yylex [Token.mk TokenKind.ARTICLE "the"]).1.lexeme ∧
      s'.input = [Token.mk TokenKind.ARTICLE "the"].tail ∧
      s'.pulls = 4 + [Token.mk TokenKind.ADVERB "quickly",
            Token.mk TokenKind.ADVERB "silently"].length + 1 :=
  parseVerbPhrase_adverbs_then_verb
    ⟨TokenKind.ADVERB, "quickly",
      [⟨TokenKind.ADVERB, "silently"⟩, ⟨TokenKind.VERB, "stops"⟩, ⟨TokenKind.ARTICLE, "the"⟩], 4⟩
    [⟨TokenKind.ADVERB, "quickly"⟩, ⟨TokenKind.ADVERB, "silently"⟩]
    ⟨TokenKind.VERB, "stops"⟩ [⟨TokenKind.ARTICLE, "the"⟩] rfl (by simp) rfl

/-- C8. When the kind of the current token is the expected one, `expect`
returns the text of the current token (the value `yytext` has before the
cursor moves) and leaves the cursor advanced by one token: one more pull, the
first undelivered token as the new current token, the others still
undelivered. -/
theorem expect_match (s : Cursor) (k : TokenKind) (msg : String) (h : s.lookahead = k) :
    expect k msg s = Outcome.ok s.yytext (next s) ∧
      (next s).pulls = s.pulls + 1 ∧
      (next s).lookahead = (yylex s.input).1.kind ∧
      (next s).yytext = (yylex s.input).1.lexeme ∧
      (next s).input = s.input.tail := by
  subst h
  exact ⟨expect_of_eq msg s, rfl, rfl, rfl, next_input s⟩

/-- C8 on the noun "fox" followed by the verb "jumps": the lexeme returned is
"fox". -/
theorem expect_match_witness :
    expect TokenKind.NOUN "<noun phrase> did not have a noun."
        ⟨TokenKind.NOUN, "fox", [⟨TokenKind.VERB, "jumps"⟩], 3⟩ =
      Outcome.ok "fox" ⟨TokenKind.VERB, "jumps", [], 4⟩ :=
  (expect_match ⟨TokenKind.NOUN, "fox", [⟨TokenKind.VERB, "jumps"⟩], 3⟩ TokenKind.NOUN
    "<noun phrase> did not have a noun." rfl).1

/-- C9. When the kind of the current token differs from the expected one,
`expect` throws exactly the message it was given and the cursor is as before
the call: same current token, same undelivered tokens, no pull. -/
theorem expect_mismatch (s : Cursor) (k : TokenKind) (msg : String) (h : s.lookahead ≠ k) :
    expect k msg s = Outcome.thrown msg s :=
  expect_of_ne msg h

/-- C9 on the verb "jumps" where a noun is expected. -/
theorem expect_mismatch_witness :
    expect TokenKind.NOUN "<noun phrase> did not have a noun."
        ⟨TokenKind.VERB, "jumps", [⟨TokenKind.TOK_EOF, ""⟩], 3⟩ =
      Outcome.thrown "<noun phrase> did not have a noun."
        ⟨TokenKind.VERB, "jumps", [⟨TokenKind.TOK_EOF, ""⟩], 3⟩ :=
  expect_mismatch _ _ _ (by decide)

/-- C10. When a token of a kind outside the seven named ones stands anywhere
before the first end-of-input marker, `parseStart` throws. -/
theorem parseStart_rejects_unknown_kind (la : TokenKind) (y : String) (p : Nat)
    (pre : List Token) (t : Token) (post : List Token) (code : Nat)
    (hpre : ∀ x ∈ pre, x.kind ≠ TokenKind.TOK_EOF) (ht : t.kind = TokenKind.UNKNOWN code) :
    ∃ (msg : String) (s' : Cursor),
      parseStart ⟨la, y, pre ++ t :: post, p⟩ = Outcome.thrown msg s' := by
  have hmem : t ∈ upToEOF (pre ++ t :: post) := by
    rw [upToEOF_append pre _ hpre]
    simp [upToEOF, ht]
  cases hres : parseStart ⟨la, y, pre ++ t :: post, p⟩ with
  | ok tree s' =>
    obtain ⟨d1, d2, hd1, hd2, hshape⟩ := parseStart_eq_ok hres
    simp only [] at hshape
    rw [hshape] at hmem
    simp only [List.mem_append, List.mem_cons, List.mem_map, List.mem_singleton,
      List.not_mem_nil, or_false] at hmem
    exfalso
    rcases hmem with (((h | h | h) | ⟨x, _, h⟩) | (h | h | h | h | h))
    · rw [h] at ht
      rcases hd1 with e | e <;> simp [e] at ht
    · rw [h] at ht; simp at ht
    · rw [h] at ht; simp at ht
    · rw [← h] at ht; simp at ht
    · rw [h] at ht; simp at ht
    · rw [h] at ht
      rcases hd2 with e | e <;> simp [e] at ht
    · rw [h] at ht; simp at ht
    · rw [h] at ht; simp at ht
    · rw [h] at ht; simp at ht
  | thrown msg s' => exact ⟨msg, s', rfl⟩
  | outOfFuel => exact absurd hres (parseStart_ne_outOfFuel _)

/-- C10 on a sentence whose verb position holds a lexer error token. -/
theorem parseStart_rejects_unknown_kind_witness :
    ∃ (msg : String) (s' : Cursor),
      parseStart ⟨TokenKind.TOK_EOF, "",
        [Token.mk TokenKind.ARTICLE "the", Token.mk TokenKind.ADJECTIVE "quick",
          Token.mk TokenKind.NOUN "fox"]
          ++ Token.mk (TokenKind.UNKNOWN 99) "#" ::
            [Token.mk TokenKind.ARTICLE "the", Token.mk TokenKind.ADJECTIVE "lazy",
              Token.mk TokenKind.NOUN "dog", Token.mk TokenKind.TOK_EOF ""], 0⟩ =
        Outcome.thrown msg s' :=
  parseStart_rejects_unknown_kind TokenKind.TOK_EOF "" 0
    [⟨TokenKind.ARTICLE, "the"⟩, ⟨TokenKind.ADJECTIVE, "quick"⟩, ⟨TokenKind.NOUN, "fox"⟩]
    ⟨TokenKind.UNKNOWN 99, "#"⟩
    [⟨TokenKind.ARTICLE, "the"⟩, ⟨TokenKind.ADJECTIVE, "lazy"⟩, ⟨TokenKind.NOUN, "dog"⟩,
      ⟨TokenKind.TOK_EOF, ""⟩]
    99 (by decide) rfl

/-! ## Further facts about the procedures -/

/-- The sentence procedure on a cursor standing on the determiner of a
well-formed subject followed by a well-formed verb phrase: what is left is the
object noun phrase, started on the token after the verb. -/
theorem parseSentence_subject_verb (d1 a1 n1 : Token) (advs : List Token) (v : Token)
    (rest : List Token) (p : Nat)
    (hd1 : d1.kind = TokenKind.ARTICLE ∨ d1.kind = TokenKind.POSSESSIVE)
    (ha1 : a1.kind = TokenKind.ADJECTIVE) (hn1 : n1.kind = TokenKind.NOUN)
    (hadv : ∀ a ∈ advs, a.kind = TokenKind.ADVERB) (hv : v.kind = TokenKind.VERB) :
    parseSentence ⟨d1.kind, d1.lexeme, a1 :: n1 :: (advs ++ v :: rest), p⟩ =
      (parseNounPhrase (next ⟨v.kind, v.lexeme, rest, p + 3 + advs.length⟩)).bind
        fun objectNP s3 =>
          Outcome.ok
            ⟨⟨⟨detTypeOf d1.kind, d1.lexeme, a1.lexeme⟩, n1.lexeme⟩,
              ⟨advs.map Token.lexeme, v.lexeme⟩, objectNP⟩ s3 := by
  have hD1 : ¬ (d1.kind ≠ TokenKind.ARTICLE ∧ d1.kind ≠ TokenKind.POSSESSIVE) := by
    rcases hd1 with h | h <;> simp [h]
  have hst : (next ⟨n1.kind, n1.lexeme, advs ++ v :: rest, p + 1 + 1⟩).stream
      = advs ++ v :: rest :=
    next_stream _ (by cases advs <;> simp)
  have hvp := parseVerbPhrase_run _ advs v rest hst hadv hv
  rw [hn1] at hvp
  unfold parseSentence
  rw [if_neg hD1, parseNounPhrase_eq]
  simp only [next_cons, if_neg hD1, ha1, hn1, ne_eq, not_true_eq_false, if_false, bind_ok]
  rw [hvp]
  simp only [bind_ok, next_pulls]

/-! ## Runs as lists of matched tokens -/

theorem matched_append {s s1 s2 : Cursor} {p1 p2 : List Token}
    (h1 : Matched s p1 s1) (h2 : Matched s1 p2 s2) : Matched s (p1 ++ p2) s2 := by
  induction p1 generalizing s with
  | nil =>
    simp only [Matched] at h1
    subst h1
    exact h2
  | cons t ts ih =>
    obtain ⟨a, b, c, d⟩ := h1
    exact ⟨a, b, c, ih d⟩

theorem matched_one (s : Cursor) (h : s.lookahead ≠ TokenKind.TOK_EOF) :
    Matched s [⟨s.lookahead, s.yytext⟩] (next s) :=
  ⟨rfl, rfl, h, rfl⟩

theorem matched_ne_eof {s s' : Cursor} {pre : List Token} (h : Matched s pre s') :
    ∀ x ∈ pre, x.kind ≠ TokenKind.TOK_EOF := by
  induction pre generalizing s with
  | nil => intro x hx; simp at hx
  | cons t ts ih =>
    obtain ⟨_, _, c, d⟩ := h
    intro x hx
    rcases List.mem_cons.mp hx with e | e
    · rw [e]; exact c
    · exact ih d x e

theorem next_congr (a a' : TokenKind) (b b' : String) (r : List Token) {q q' : Nat}
    (h : q = q') : next ⟨a, b, r, q⟩ = next ⟨a', b', r, q'⟩ := by
  subst h
  rfl

/-- A run that starts with the priming pull and matches `pre`: the tokens
`pre` are the first the source held, and the cursor is the one a single pull
on the remaining tokens gives. -/
theorem matched_input {pre : List Token} :
    ∀ {s0 s' : Cursor}, Matched (next s0) pre s' →
      ∃ rest : List Token, s0.input = pre ++ rest ∧
        s' = next ⟨s0.lookahead, s0.yytext, rest, s0.pulls + pre.length⟩ := by
  induction pre with
  | nil =>
    intro s0 s' h
    simp only [Matched] at h
    subst h
    exact ⟨s0.input, rfl, rfl⟩
  | cons t ts ih =>
    intro s0 s' h
    obtain ⟨a, b, c, d⟩ := h
    cases s0 with
    | mk la y inp p =>
      cases inp with
      | nil => exact absurd a.symm c
      | cons u inp' =>
        have hu : u = t := by
          cases u; cases t
          simp only [next_cons] at a b
          simp only [Token.mk.injEq]
          exact ⟨a, b⟩
        subst hu
        obtain ⟨rest, h1, h2⟩ := ih d
        simp only [next_cons] at h1 h2
        refine ⟨rest, by simp [h1], ?_⟩
        rw [h2]
        exact next_congr _ _ _ _ _ (by simp only [List.length_cons]; omega)

theorem parseNounPhrase_ok_matched {s : Cursor} {np : NounPhrase} {s' : Cursor}
    (h : parseNounPhrase s = Outcome.ok np s') :
    ∃ (pre : List Token) (d : TokenKind), Matched s pre s' ∧
      (d = TokenKind.ARTICLE ∨ d = TokenKind.POSSESSIVE) ∧
      pre.map Token.kind = [d, TokenKind.ADJECTIVE, TokenKind.NOUN] := by
  rw [parseNounPhrase_eq] at h
  split at h
  · simp at h
  · rename_i hD
    split at h
    · simp at h
    · rename_i hJ
      split at h
      · simp at h
      · rename_i hN
        simp only [ne_eq, not_not] at hJ hN
        simp only [Outcome.ok.injEq] at h
        have hD' : s.lookahead = TokenKind.ARTICLE ∨ s.lookahead = TokenKind.POSSESSIVE := by
          by_contra hc
          exact hD ⟨fun h => hc (Or.inl h), fun h => hc (Or.inr h)⟩
        refine ⟨[⟨s.lookahead, s.yytext⟩, ⟨(next s).lookahead, (next s).yytext⟩,
          ⟨(next (next s)).lookahead, (next (next s)).yytext⟩], s.lookahead, ?_, hD', ?_⟩
        · rw [← h.2]
          refine ⟨rfl, rfl, ?_, rfl, rfl, ?_, rfl, rfl, ?_, rfl⟩
          · rcases hD' with e | e <;> simp [e]
          · simp [hJ]
          · simp [hN]
        · simp [hJ, hN]

theorem parseNounPhrase_thrown_matched {s : Cursor} {m : String} {s' : Cursor}
    (h : parseNounPhrase s = Outcome.thrown m s') :
    ∃ pre : List Token, Matched s pre s' ∧ NPStuck (pre.map Token.kind) s'.lookahead := by
  rw [parseNounPhrase_eq] at h
  split at h
  · rename_i hD
    simp only [Outcome.thrown.injEq] at h
    rw [← h.2]
    exact ⟨[], rfl, Or.inl ⟨rfl, hD⟩⟩
  · rename_i hD
    have hD' : s.lookahead = TokenKind.ARTICLE ∨ s.lookahead = TokenKind.POSSESSIVE := by
      by_contra hc
      exact hD ⟨fun h => hc (Or.inl h), fun h => hc (Or.inr h)⟩
    have hE : s.lookahead ≠ TokenKind.TOK_EOF := by
      rcases hD' with e | e <;> simp [e]
    split at h
    · rename_i hJ
      simp only [Outcome.thrown.injEq] at h
      rw [← h.2]
      exact ⟨[⟨s.lookahead, s.yytext⟩], matched_one s hE,
        Or.inr ⟨s.lookahead, hD', Or.inl ⟨rfl, hJ⟩⟩⟩
    · rename_i hJ
      simp only [ne_eq, not_not] at hJ
      split at h
      · rename_i hN
        simp only [Outcome.thrown.injEq] at h
        rw [← h.2]
        refine ⟨[⟨s.lookahead, s.yytext⟩, ⟨(next s).lookahead, (next s).yytext⟩],
          matched_append (matched_one s hE) (matched_one (next s) (by simp [hJ])),
          Or.inr ⟨s.lookahead, hD', Or.inr ⟨by simp [hJ], hN⟩⟩⟩
      · simp at h

theorem adverbLoop_ok_matched :
    ∀ (fuel : Nat) (acc : List String) (s : Cursor) (advs : List String) (s' : Cursor),
      adverbLoop fuel acc s = Outcome.ok advs s' →
      ∃ pre : List Token, Matched s pre s' ∧
        pre.map Token.kind = List.replicate pre.length TokenKind.ADVERB ∧
        s'.lookahead ≠ TokenKind.ADVERB ∧ advs = acc ++ pre.map Token.lexeme := by
  intro fuel
  induction fuel with
  | zero => intro acc s advs s' h; simp [adverbLoop] at h
  | succ f ih =>
    intro acc s advs s' h
    by_cases hA : s.lookahead = TokenKind.ADVERB
    · simp only [adverbLoop, hA, if_true, expect, bind_ok] at h
      obtain ⟨pre, h1, h2, h3, h4⟩ := ih _ _ _ _ h
      refine ⟨⟨s.lookahead, s.yytext⟩ :: pre, ⟨rfl, rfl, by simp [hA], h1⟩, ?_, h3, ?_⟩
      · simp only [List.map_cons, List.length_cons, List.replicate_succ, h2, hA,
          List.length_map]
      · simp [h4]
    · simp only [adverbLoop, hA, if_false, Outcome.ok.injEq] at h
      obtain ⟨h1, h2⟩ := h
      subst h1 h2
      exact ⟨[], rfl, rfl, hA, by simp⟩

theorem parseVerbPhrase_ok_matched {s : Cursor} {vp : VerbPhrase} {s' : Cursor}
    (h : parseVerbPhrase s = Outcome.ok vp s') :
    ∃ (pre : List Token) (n : Nat), Matched s pre s' ∧
      pre.map Token.kind = List.replicate n TokenKind.ADVERB ++ [TokenKind.VERB] ∧
      n = vp.adverbs.length := by
  unfold parseVerbPhrase at h
  split at h
  · simp at h
  · obtain ⟨advs, s1, h1, h2⟩ := bind_eq_ok h
    obtain ⟨lex, s2, h3, h4⟩ := bind_eq_ok h2
    obtain ⟨pre, m1, m2, _, m4⟩ := adverbLoop_ok_matched _ _ _ _ _ h1
    obtain ⟨k1, _, k3⟩ := expect_eq_ok h3
    simp only [Outcome.ok.injEq] at h4
    obtain ⟨h5, h6⟩ := h4
    subst h5 h6 k3
    refine ⟨pre ++ [⟨s1.lookahead, s1.yytext⟩], pre.length,
      matched_append m1 (matched_one s1 (by simp [k1])), ?_, ?_⟩
    · simp [m2, k1]
    · simp [m4]

theorem parseVerbPhrase_thrown_matched {s : Cursor} {m : String} {s' : Cursor}
    (h : parseVerbPhrase s = Outcome.thrown m s') :
    ∃ (pre : List Token) (n : Nat), Matched s pre s' ∧
      pre.map Token.kind = List.replicate n TokenKind.ADVERB ∧
      s'.lookahead ≠ TokenKind.VERB ∧ s'.lookahead ≠ TokenKind.ADVERB := by
  unfold parseVerbPhrase at h
  split at h
  · rename_i hF
    simp only [Outcome.thrown.injEq] at h
    rw [← h.2]
    exact ⟨[], 0, rfl, rfl, hF.1, hF.2⟩
  · rcases bind_eq_thrown h with h1 | ⟨advs, s1, h1, h2⟩
    · exact absurd h1 (adverbLoop_ne_thrown _ _ _ _ _)
    · obtain ⟨pre, m1, m2, m3, _⟩ := adverbLoop_ok_matched _ _ _ _ _ h1
      rcases bind_eq_thrown h2 with h3 | ⟨lex, s2, _, h4⟩
      · obtain ⟨k1, _, k3⟩ := expect_eq_thrown h3
        subst k3
        exact ⟨pre, pre.length, m1, m2, k1, m3⟩
      · simp at h4

theorem parseSentence_ok_matched {s : Cursor} {t : Sentence} {s' : Cursor}
    (h : parseSentence s = Outcome.ok t s') :
    ∃ (pre : List Token) (d1 d2 : TokenKind), Matched s pre s' ∧
      (d1 = TokenKind.ARTICLE ∨ d1 = TokenKind.POSSESSIVE) ∧
      (d2 = TokenKind.ARTICLE ∨ d2 = TokenKind.POSSESSIVE) ∧
      pre.map Token.kind =
        [d1, TokenKind.ADJECTIVE, TokenKind.NOUN]
          ++ List.replicate t.verbP.adverbs.length TokenKind.ADVERB
          ++ [TokenKind.VERB, d2, TokenKind.ADJECTIVE, TokenKind.NOUN] := by
  unfold parseSentence at h
  split at h
  · simp at h
  · obtain ⟨np1, s1, h1, h2⟩ := bind_eq_ok h
    obtain ⟨vp, s2, h3, h4⟩ := bind_eq_ok h2
    obtain ⟨np2, s3, h5, h6⟩ := bind_eq_ok h4
    simp only [Outcome.ok.injEq] at h6
    obtain ⟨h7, h8⟩ := h6
    subst h7 h8
    obtain ⟨p1, d1, a1, a2, a3⟩ := parseNounPhrase_ok_matched h1
    obtain ⟨p2, n, b1, b2, b3⟩ := parseVerbPhrase_ok_matched h3
    obtain ⟨p3, d2, c1, c2, c3⟩ := parseNounPhrase_ok_matched h5
    subst b3
    refine ⟨p1 ++ p2 ++ p3, d1, d2, matched_append (matched_append a1 b1) c1, a2, c2, ?_⟩
    simp [a3, b2, c3]

theorem parseSentence_thrown_matched {s : Cursor} {m : String} {s' : Cursor}
    (h : parseSentence s = Outcome.thrown m s') :
    ∃ pre : List Token, Matched s pre s' ∧ SentenceStuck (pre.map Token.kind) s'.lookahead := by
  unfold parseSentence at h
  split at h
  · rename_i hD
    simp only [Outcome.thrown.injEq] at h
    rw [← h.2]
    exact ⟨[], rfl, Or.inl (Or.inl ⟨rfl, hD⟩)⟩
  · rcases bind_eq_thrown h with h1 | ⟨np1, s1, h1, h2⟩
    · obtain ⟨pre, a1, a2⟩ := parseNounPhrase_thrown_matched h1
      exact ⟨pre, a1, Or.inl a2⟩
    · obtain ⟨p1, d1, a1, a2, a3⟩ := parseNounPhrase_ok_matched h1
      rcases bind_eq_thrown h2 with h3 | ⟨vp, s2, h3, h4⟩
      · obtain ⟨p2, n, b1, b2, b3, b4⟩ := parseVerbPhrase_thrown_matched h3
        refine ⟨p1 ++ p2, matched_append a1 b1, Or.inr (Or.inl ⟨d1, n, a2, ?_, b3, b4⟩)⟩
        simp [a3, b2]
      · obtain ⟨p2, n, b1, b2, _⟩ := parseVerbPhrase_ok_matched h3
        rcases bind_eq_thrown h4 with h5 | ⟨np2, s3, _, h6⟩
        · obtain ⟨p3, c1, c2⟩ := parseNounPhrase_thrown_matched h5
          refine ⟨p1 ++ p2 ++ p3, matched_append (matched_append a1 b1) c1,
            Or.inr (Or.inr ⟨d1, n, p3.map Token.kind, a2, ?_, c2⟩)⟩
          simp [a3, b2]
        · simp at h6

theorem parseStart_thrown_matched {s : Cursor} {m : String} {s' : Cursor}
    (h : parseStart s = Outcome.thrown m s') :
    ∃ pre : List Token, Matched (next s) pre s' ∧ Stuck (pre.map Token.kind) s'.lookahead := by
  unfold parseStart at h
  rcases bind_eq_thrown h with h1 | ⟨t, s1, h1, h2⟩
  · obtain ⟨pre, a1, a2⟩ := parseSentence_thrown_matched h1
    exact ⟨pre, a1, Or.inl a2⟩
  · split at h2
    · rename_i hE
      simp only [Outcome.thrown.injEq] at h2
      obtain ⟨pre, d1, d2, a1, a2, a3, a4⟩ := parseSentence_ok_matched h1
      rw [← h2.2]
      exact ⟨pre, a1, Or.inr ⟨d1, d2, _, a2, a3, a4, hE⟩⟩
    · simp at h2

theorem parseStart_ok_matched {s : Cursor} {t : Sentence} {s' : Cursor}
    (h : parseStart s = Outcome.ok t s') :
    ∃ (pre : List Token) (d1 d2 : TokenKind), Matched (next s) pre s' ∧
      (d1 = TokenKind.ARTICLE ∨ d1 = TokenKind.POSSESSIVE) ∧
      (d2 = TokenKind.ARTICLE ∨ d2 = TokenKind.POSSESSIVE) ∧
      pre.map Token.kind =
        [d1, TokenKind.ADJECTIVE, TokenKind.NOUN]
          ++ List.replicate t.verbP.adverbs.length TokenKind.ADVERB
          ++ [TokenKind.VERB, d2, TokenKind.ADJECTIVE, TokenKind.NOUN] ∧
      s'.lookahead = TokenKind.TOK_EOF := by
  unfold parseStart at h
  obtain ⟨t1, s1, h1, h2⟩ := bind_eq_ok h
  split at h2
  · simp at h2
  · rename_i hE
    simp only [ne_eq, not_not] at hE
    simp only [Outcome.ok.injEq] at h2
    obtain ⟨h3, h4⟩ := h2
    subst h3 h4
    obtain ⟨pre, d1, d2, a1, a2, a3, a4⟩ := parseSentence_ok_matched h1
    exact ⟨pre, d1, d2, a1, a2, a3, a4, hE⟩

/-! ## Stuck runs and the grammar -/

theorem replicate_append_cons_inj {α : Type} (a : α) :
    ∀ (k n : Nat) (x y : α) (r1 r2 : List α), x ≠ a → y ≠ a →
      List.replicate k a ++ x :: r1 = List.replicate n a ++ y :: r2 →
      k = n ∧ x = y ∧ r1 = r2 := by
  intro k
  induction k with
  | zero =>
    intro n x y r1 r2 hx _ h
    cases n with
    | zero =>
      simp only [List.replicate_zero, List.nil_append, List.cons.injEq] at h
      exact ⟨rfl, h.1, h.2⟩
    | succ n =>
      simp only [List.replicate_zero, List.nil_append, List.replicate_succ, List.cons_append,
        List.cons.injEq] at h
      exact absurd h.1 hx
  | succ k ih =>
    intro n x y r1 r2 hx hy h
    cases n with
    | zero =>
      simp only [List.replicate_zero, List.nil_append, List.replicate_succ, List.cons_append,
        List.cons.injEq] at h
      exact absurd h.1.symm hy
    | succ n =>
      simp only [List.replicate_succ, List.cons_append, List.cons.injEq, true_and] at h
      obtain ⟨h1, h2, h3⟩ := ih n x y r1 r2 hx hy h
      exact ⟨by rw [h1], h2, h3⟩

theorem npStuck_cases {ks : List TokenKind} {x : TokenKind} (h : NPStuck ks x) :
    (∃ cont : List TokenKind, ∃ d : TokenKind,
      (d = TokenKind.ARTICLE ∨ d = TokenKind.POSSESSIVE) ∧
      ks ++ cont = [d, TokenKind.ADJECTIVE, TokenKind.NOUN]) ∧
    ∀ (cont : List TokenKind) (d : TokenKind) (tl : List TokenKind),
      (d = TokenKind.ARTICLE ∨ d = TokenKind.POSSESSIVE) →
      ks ++ x :: cont ≠ d :: TokenKind.ADJECTIVE :: TokenKind.NOUN :: tl := by
  rcases h with ⟨h1, h2, h3⟩ | ⟨d, hd, ⟨h1, h2⟩ | ⟨h1, h2⟩⟩
  · subst h1
    refine ⟨⟨_, TokenKind.ARTICLE, Or.inl rfl, rfl⟩, ?_⟩
    intro cont d tl hd he
    simp only [List.nil_append, List.cons.injEq] at he
    rcases hd with e | e
    · exact h2 (he.1.trans e)
    · exact h3 (he.1.trans e)
  · subst h1
    refine ⟨⟨[TokenKind.ADJECTIVE, TokenKind.NOUN], d, hd, rfl⟩, ?_⟩
    intro cont d' tl _ he
    simp only [List.cons_append, List.nil_append, List.cons.injEq] at he
    exact h2 he.2.1
  · subst h1
    refine ⟨⟨[TokenKind.NOUN], d, hd, rfl⟩, ?_⟩
    intro cont d' tl _ he
    simp only [List.cons_append, List.nil_append, List.cons.injEq] at he
    exact h2 he.2.2.1

/-- A stuck run has matched a list of kinds that a continuation extends to a
well-formed input, and the kind it is stuck on extends it to a list that no
continuation does. -/
theorem stuck_viable {ks : List TokenKind} {x : TokenKind} (h : Stuck ks x) :
    Viable ks ∧ ¬ Viable (ks ++ [x]) := by
  rcases h with (h | ⟨d, n, hd, hks, hx1, hx2⟩ | ⟨d, n, ks2, hd, hks, hnp⟩) |
    ⟨d1, d2, n, hd1, hd2, hks, hx⟩
  · obtain ⟨⟨cont, d, hd, hc⟩, hno⟩ := npStuck_cases h
    constructor
    · refine ⟨cont ++ [TokenKind.VERB, TokenKind.ARTICLE, TokenKind.ADJECTIVE, TokenKind.NOUN,
        TokenKind.TOK_EOF], d, TokenKind.ARTICLE, 0, hd, Or.inl rfl, ?_⟩
      rw [← List.append_assoc, hc]
      rfl
    · rintro ⟨cont', d1', d2', n', hd1', _, he⟩
      exact hno cont' d1' _ hd1' (by simpa using he)
  · subst hks
    constructor
    · exact ⟨[TokenKind.VERB, TokenKind.ARTICLE, TokenKind.ADJECTIVE, TokenKind.NOUN,
        TokenKind.TOK_EOF], d, TokenKind.ARTICLE, n, hd, Or.inl rfl, by simp⟩
    · rintro ⟨cont', d1', d2', n', _, _, he⟩
      simp only [List.append_assoc, List.cons_append, List.nil_append, List.cons.injEq,
        true_and] at he
      have := replicate_append_cons_inj TokenKind.ADVERB n n' x TokenKind.VERB _ _ hx2
        (by decide) he.2
      exact hx1 this.2.1
  · subst hks
    obtain ⟨⟨cont, d2, hd2, hc⟩, hno⟩ := npStuck_cases hnp
    constructor
    · refine ⟨cont ++ [TokenKind.TOK_EOF], d, d2, n, hd, hd2, ?_⟩
      simp only [List.append_assoc, List.cons_append, List.nil_append, List.cons.injEq,
        true_and, List.append_cancel_left_eq]
      rw [← List.append_assoc, hc]
      rfl
    · rintro ⟨cont', d1', d2', n', _, hd2', he⟩
      simp only [List.append_assoc, List.cons_append, List.nil_append, List.cons.injEq,
        true_and] at he
      have := replicate_append_cons_inj TokenKind.ADVERB n n' TokenKind.VERB TokenKind.VERB
        _ _ (by decide) (by decide) he.2
      exact hno cont' d2' _ hd2' this.2.2
  · subst hks
    constructor
    · exact ⟨[TokenKind.TOK_EOF], d1, d2, n, hd1, hd2, by simp⟩
    · rintro ⟨cont', d1', d2', n', _, _, he⟩
      simp only [List.append_assoc, List.cons_append, List.nil_append, List.cons.injEq,
        true_and] at he
      have := replicate_append_cons_inj TokenKind.ADVERB n n' TokenKind.VERB TokenKind.VERB
        _ _ (by decide) (by decide) he.2
      have h2 := this.2.2
      simp only [List.cons.injEq] at h2
      exact hx h2.2.2.2.1

/-! ## Counting pulls -/

theorem upToEOF_length_pos (l : List Token) : 1 ≤ (upToEOF l).length := by
  cases l with
  | nil => simp [upToEOF]
  | cons t ts =>
    by_cases h : t.kind = TokenKind.TOK_EOF <;> simp [upToEOF, h]

theorem pending_length_pos (s : Cursor) : 1 ≤ s.pending.length := by
  unfold Cursor.pending
  split <;> simp

theorem upToEOF_length_of_eof (l : List Token)
    (h : (yylex l).1.kind = TokenKind.TOK_EOF) : (upToEOF l).length = 1 := by
  cases l with
  | nil => simp [upToEOF]
  | cons t ts =>
    have ht : t.kind = TokenKind.TOK_EOF := h
    simp [upToEOF, ht]

theorem matched_pulls {s s' : Cursor} {pre : List Token} (h : Matched s pre s') :
    s'.pulls = s.pulls + pre.length := by
  induction pre generalizing s with
  | nil =>
    simp only [Matched] at h
    subst h
    rfl
  | cons t ts ih =>
    obtain ⟨_, _, _, d⟩ := h
    rw [ih d, next_pulls, List.length_cons]
    omega

/-- A run that starts with the priming pull and matches `pre`: the pulls made,
against the tokens the source holds up to the first end-of-input marker. -/
theorem matched_pull_count {s s' : Cursor} {pre : List Token} (h : Matched (next s) pre s') :
    s'.pulls = s.pulls + pre.length + 1 ∧
      pre.length + 1 ≤ (upToEOF s.input).length ∧
      s'.input = s.input.drop (pre.length + 1) ∧
      (s'.lookahead = TokenKind.TOK_EOF → (upToEOF s.input).length = pre.length + 1) := by
  obtain ⟨rest, h1, h2⟩ := matched_input h
  have hne := matched_ne_eof h
  have hup : (upToEOF s.input).length = pre.length + (upToEOF rest).length := by
    rw [h1, upToEOF_append pre rest hne, List.length_append]
  refine ⟨?_, ?_, ?_, ?_⟩
  · rw [h2]; rfl
  · have := upToEOF_length_pos rest
    omega
  · rw [h2, next_input, h1]
    simp only []
    rw [← List.drop_one, ← List.drop_drop]
    simp
  · intro he
    rw [h2] at he
    have he' : (yylex rest).1.kind = TokenKind.TOK_EOF := he
    rw [hup, upToEOF_length_of_eof rest he']

theorem adverbLoop_mono :
    ∀ (f : Nat) (acc : List String) (s : Cursor) (r : List String) (s' : Cursor),
      adverbLoop f acc s = Outcome.ok r s' →
      ∀ g : Nat, f ≤ g → adverbLoop g acc s = Outcome.ok r s' := by
  intro f
  induction f with
  | zero => intro acc s r s' h; simp [adverbLoop] at h
  | succ f ih =>
    intro acc s r s' h g hg
    cases g with
    | zero => omega
    | succ g =>
      by_cases hA : s.lookahead = TokenKind.ADVERB
      · simp only [adverbLoop, hA, if_true, expect, bind_ok] at h ⊢
        exact ih _ _ _ _ h g (by omega)
      · simp only [adverbLoop, hA, if_false] at h ⊢
        exact h

/-- With any fuel from `input.length + 2` on, the adverb loop returns
normally. -/
theorem adverbLoop_total (fuel : Nat) (acc : List String) (s : Cursor)
    (hf : s.input.length + 2 ≤ fuel) :
    ∃ (advs : List String) (s' : Cursor), adverbLoop fuel acc s = Outcome.ok advs s' := by
  cases hres : adverbLoop fuel acc s with
  | ok advs s' => exact ⟨advs, s', rfl⟩
  | thrown m s' => exact absurd hres (adverbLoop_ne_thrown _ _ _ _ _)
  | outOfFuel =>
    exact absurd hres (adverbLoop_ne_outOfFuel fuel acc s (by omega) (fun _ => hf))

/-- The messages `parseStart` can throw: those of `parseSentence` and its own. -/
theorem parseStart_eq_thrown_cases {s : Cursor} {m : String} {s' : Cursor}
    (h : parseStart s = Outcome.thrown m s') :
    m = "<sentence> did not start with an article or possessive." ∨
      m = "<noun phrase> did not start with an article or possessive." ∨
      m = "<adjective phrase> did not have an adjective." ∨
      m = "<noun phrase> did not have a noun." ∨
      m = "<verb phrase> did not start with a verb or an adverb." ∨
      m = "Extra input after complete sentence." := by
  unfold parseStart at h
  rcases bind_eq_thrown h with h1 | ⟨t, s1, _, h2⟩
  · rcases parseSentence_eq_thrown h1 with e | e | e | e | e <;> simp [e]
  · split at h2
    · simp only [Outcome.thrown.injEq] at h2
      simp [← h2.1]
    · simp at h2

/-! ## The claims, continued -/

/-- C11. On a cursor whose current token is ARTICLE or POSSESSIVE the
determiner's `expect` call of `parseAdjectivePhrase` returns normally; when the
next token is ADJECTIVE the procedure returns a node with all three fields
set: the determiner kind is Article exactly for ARTICLE and Possessive exactly
for POSSESSIVE, the determiner lexeme is the current token's text, the
adjective lexeme is the next token's text, and exactly two tokens are pulled. -/
theorem parseAdjectivePhrase_determiner_adjective (s : Cursor)
    (hd : s.lookahead = TokenKind.ARTICLE ∨ s.lookahead = TokenKind.POSSESSIVE) :
    (if s.lookahead = TokenKind.ARTICLE then
        expect TokenKind.ARTICLE
          "<adjective phrase> did not start with an article or possessive." s
      else
        expect TokenKind.POSSESSIVE
          "<adjective phrase> did not start with an article or possessive." s)
      = Outcome.ok s.yytext (next s) ∧
    ((yylex s.input).1.kind = TokenKind.ADJECTIVE →
      ∃ (node : AdjectivePhrase) (s' : Cursor),
        parseAdjectivePhrase s = Outcome.ok node s' ∧
        (node.detType = DetType.Article ↔ s.lookahead = TokenKind.ARTICLE) ∧
        (node.detType = DetType.Possessive ↔ s.lookahead = TokenKind.POSSESSIVE) ∧
        node.detLexeme = s.yytext ∧
        node.adjLexeme = (yylex s.input).1.lexeme ∧
        s' = next (next s) ∧ s'.pulls = s.pulls + 2) := by
  constructor
  · rcases hd with h | h <;> simp [h, expect]
  · intro ha
    have ha' : (next s).lookahead = TokenKind.ADJECTIVE := ha
    have hD : ¬ (s.lookahead ≠ TokenKind.ARTICLE ∧ s.lookahead ≠ TokenKind.POSSESSIVE) := by
      rcases hd with h | h <;> simp [h]
    refine ⟨⟨detTypeOf s.lookahead, s.yytext, (next s).yytext⟩, next (next s), ?_, ?_, ?_,
      rfl, rfl, rfl, rfl⟩
    · rw [parseAdjectivePhrase_eq, if_neg hD, if_pos ha']
    · rcases hd with h | h <;> simp [h, detTypeOf]
    · rcases hd with h | h <;> simp [h, detTypeOf]

/-- C11 on "her old": a possessive followed by an adjective. -/
theorem parseAdjectivePhrase_determiner_adjective_witness :
    ∃ (node : AdjectivePhrase) (s' : Cursor),
      parseAdjectivePhrase ⟨TokenKind.POSSESSIVE, "her",
          [⟨TokenKind.ADJECTIVE, "old"⟩, ⟨TokenKind.NOUN, "car"⟩], 1⟩ = Outcome.ok node s' ∧
      (node.detType = DetType.Article ↔ TokenKind.POSSESSIVE = TokenKind.ARTICLE) ∧
      (node.detType = DetType.Possessive ↔ TokenKind.POSSESSIVE = TokenKind.POSSESSIVE) ∧
      node.detLexeme = "her" ∧
      node.adjLexeme = "old" ∧
      s' = ⟨TokenKind.NOUN, "car", [], 3⟩ ∧ s'.pulls = 1 + 2 :=
  (parseAdjectivePhrase_determiner_adjective
    ⟨TokenKind.POSSESSIVE, "her", [⟨TokenKind.ADJECTIVE, "old"⟩, ⟨TokenKind.NOUN, "car"⟩], 1⟩
    (Or.inr rfl)).2 rfl

/-- C12. When `parseAdjectivePhrase` throws although its FIRST check passed,
the message is the missing-adjective one, and `parseNounPhrase` and
`parseSentence` on the same cursor, and `parseStart` on any cursor whose
priming pull leads to it, throw the same message with the same cursor. -/
theorem adjective_failure_propagates (s : Cursor) (m : String) (s' : Cursor)
    (hd : s.lookahead = TokenKind.ARTICLE ∨ s.lookahead = TokenKind.POSSESSIVE)
    (h : parseAdjectivePhrase s = Outcome.thrown m s') :
    m = "<adjective phrase> did not have an adjective." ∧
      parseNounPhrase s = Outcome.thrown m s' ∧
      parseSentence s = Outcome.thrown m s' ∧
      ∀ s0 : Cursor, next s0 = s → parseStart s0 = Outcome.thrown m s' := by
  have hD : ¬ (s.lookahead ≠ TokenKind.ARTICLE ∧ s.lookahead ≠ TokenKind.POSSESSIVE) := by
    rcases hd with h | h <;> simp [h]
  have hm : m = "<adjective phrase> did not have an adjective." := by
    rw [parseAdjectivePhrase_eq, if_neg hD] at h
    split at h
    · simp at h
    · simp only [Outcome.thrown.injEq] at h
      exact h.1.symm
  have hnp : parseNounPhrase s = Outcome.thrown m s' := by
    unfold parseNounPhrase
    rw [if_neg hD, h, bind_thrown]
  have hs : parseSentence s = Outcome.thrown m s' := by
    unfold parseSentence
    rw [if_neg hD, hnp, bind_thrown]
  refine ⟨hm, hnp, hs, ?_⟩
  intro s0 h0
  unfold parseStart
  rw [h0, hs, bind_thrown]

/-- C12 on "the fox": a determiner followed by a noun. -/
theorem adjective_failure_propagates_witness :
    "<adjective phrase> did not have an adjective."
        = "<adjective phrase> did not have an adjective." ∧
      parseNounPhrase ⟨TokenKind.ARTICLE, "the", [⟨TokenKind.NOUN, "fox"⟩], 1⟩ =
        Outcome.thrown "<adjective phrase> did not have an adjective."
          ⟨TokenKind.NOUN, "fox", [], 2⟩ ∧
      parseSentence ⟨TokenKind.ARTICLE, "the", [⟨TokenKind.NOUN, "fox"⟩], 1⟩ =
        Outcome.thrown "<adjective phrase> did not have an adjective."
          ⟨TokenKind.NOUN, "fox", [], 2⟩ ∧
      ∀ s0 : Cursor, next s0 = ⟨TokenKind.ARTICLE, "the", [⟨TokenKind.NOUN, "fox"⟩], 1⟩ →
        parseStart s0 = Outcome.thrown "<adjective phrase> did not have an adjective."
          ⟨TokenKind.NOUN, "fox", [], 2⟩ :=
  adjective_failure_propagates
    ⟨TokenKind.ARTICLE, "the", [⟨TokenKind.NOUN, "fox"⟩], 1⟩
    "<adjective phrase> did not have an adjective." ⟨TokenKind.NOUN, "fox", [], 2⟩
    (Or.inl rfl) (by decide)

/-- C13. On a stream that begins with a well-formed subject and a well-formed
verb phrase, when the token the source delivers next (the marker itself when
the source is exhausted) is neither ARTICLE nor POSSESSIVE, `parseStart` throws
the message of the FIRST check of `parseNounPhrase`, with the cursor on that
token. -/
theorem parseStart_object_bad_first (la : TokenKind) (y : String) (p : Nat)
    (d1 a1 n1 : Token) (advs : List Token) (v : Token) (rest : List Token)
    (hd1 : d1.kind = TokenKind.ARTICLE ∨ d1.kind = TokenKind.POSSESSIVE)
    (ha1 : a1.kind = TokenKind.ADJECTIVE) (hn1 : n1.kind = TokenKind.NOUN)
    (hadv : ∀ a ∈ advs, a.kind = TokenKind.ADVERB) (hv : v.kind = TokenKind.VERB)
    (hobj : (yylex rest).1.kind ≠ TokenKind.ARTICLE ∧
      (yylex rest).1.kind ≠ TokenKind.POSSESSIVE) :
    parseStart ⟨la, y, [d1, a1, n1] ++ advs ++ v :: rest, p⟩ =
      Outcome.thrown "<noun phrase> did not start with an article or possessive."
        (next ⟨v.kind, v.lexeme, rest, p + 4 + advs.length⟩) := by
  have hin : [d1, a1, n1] ++ advs ++ v :: rest = d1 :: a1 :: n1 :: (advs ++ v :: rest) := by
    simp
  have hp : p + 1 + 3 + advs.length = p + 4 + advs.length := by omega
  have hobj' : (next ⟨v.kind, v.lexeme, rest, p + 4 + advs.length⟩).lookahead
        ≠ TokenKind.ARTICLE ∧
      (next ⟨v.kind, v.lexeme, rest, p + 4 + advs.length⟩).lookahead
        ≠ TokenKind.POSSESSIVE := hobj
  unfold parseStart
  rw [hin, next_cons, parseSentence_subject_verb d1 a1 n1 advs v rest (p + 1) hd1 ha1 hn1 hadv hv,
    hp]
  unfold parseNounPhrase
  rw [if_pos hobj', bind_thrown, bind_thrown]

/-- C13 on "the quick fox often jumps" followed directly by the marker. -/
theorem parseStart_object_bad_first_witness :
    parseStart ⟨TokenKind.TOK_EOF, "",
        [Token.mk TokenKind.ARTICLE "the", Token.mk TokenKind.ADJECTIVE "quick",
          Token.mk TokenKind.NOUN "fox"]
          ++ [Token.mk TokenKind.ADVERB "often"]
          ++ Token.mk TokenKind.VERB "jumps" :: [Token.mk TokenKind.TOK_EOF ""], 0⟩ =
      Outcome.thrown "<noun phrase> did not start with an article or possessive."
        (next ⟨TokenKind.VERB, "jumps", [Token.mk TokenKind.TOK_EOF ""],
          0 + 4 + [Token.mk TokenKind.ADVERB "often"].length⟩) :=
  parseStart_object_bad_first TokenKind.TOK_EOF "" 0
    ⟨TokenKind.ARTICLE, "the"⟩ ⟨TokenKind.ADJECTIVE, "quick"⟩ ⟨TokenKind.NOUN, "fox"⟩
    [⟨TokenKind.ADVERB, "often"⟩] ⟨TokenKind.VERB, "jumps"⟩ [⟨TokenKind.TOK_EOF, ""⟩]
    (Or.inl rfl) rfl rfl (by simp) rfl (by decide)

/-- C14. On a cursor whose current and following tokens are one or more adverbs
and then a token that is neither ADVERB nor VERB, `parseVerbPhrase` throws,
with the cursor on that token, the very message its FIRST check throws on a
cursor whose current token is neither VERB nor ADVERB; and `parseVerbPhrase`
throws no other message at all. -/
theorem parseVerbPhrase_adverbs_without_verb (s : Cursor) (advs : List Token) (t : Token)
    (rest : List Token)
    (hs : s.stream = advs ++ t :: rest) (hne : advs ≠ [])
    (hadv : ∀ a ∈ advs, a.kind = TokenKind.ADVERB)
    (ht1 : t.kind ≠ TokenKind.ADVERB) (ht2 : t.kind ≠ TokenKind.VERB) :
    parseVerbPhrase s =
        Outcome.thrown "<verb phrase> did not start with a verb or an adverb."
          ⟨t.kind, t.lexeme, rest, s.pulls + advs.length⟩ ∧
      (∀ s2 : Cursor, s2.lookahead ≠ TokenKind.VERB → s2.lookahead ≠ TokenKind.ADVERB →
        parseVerbPhrase s2 =
          Outcome.thrown "<verb phrase> did not start with a verb or an adverb." s2) ∧
      (∀ (s2 : Cursor) (m : String) (s2' : Cursor),
        parseVerbPhrase s2 = Outcome.thrown m s2' →
        m = "<verb phrase> did not start with a verb or an adverb.") := by
  refine ⟨?_, ?_, fun s2 m s2' h => parseVerbPhrase_eq_thrown h⟩
  · have hfirst : ¬ (s.lookahead ≠ TokenKind.VERB ∧ s.lookahead ≠ TokenKind.ADVERB) := by
      cases advs with
      | nil => exact absurd rfl hne
      | cons a as =>
        simp only [Cursor.stream, List.cons_append, List.cons.injEq] at hs
        have : s.lookahead = a.kind := by rw [← hs.1]
        simp [this, hadv a (List.mem_cons_self _ _)]
    have hlen : advs.length < s.input.length + 2 := by
      have := congrArg List.length hs
      simp [Cursor.stream] at this
      omega
    have hloop := adverbLoop_run advs (s.input.length + 2) [] s t rest hs hadv ht1 hlen
    unfold parseVerbPhrase
    rw [if_neg hfirst, hloop, bind_ok, expect_of_ne _ (by exact ht2), bind_thrown]
  · intro s2 h1 h2
    unfold parseVerbPhrase
    rw [if_pos ⟨h1, h2⟩]

/-- C14 on "quickly silently the": two adverbs, then an article. -/
theorem parseVerbPhrase_adverbs_without_verb_witness :
    parseVerbPhrase ⟨TokenKind.ADVERB, "quickly",
        [⟨TokenKind.ADVERB, "silently"⟩, ⟨TokenKind.ARTICLE, "the"⟩,
          ⟨TokenKind.TOK_EOF, ""⟩], 4⟩ =
      Outcome.thrown "<verb phrase> did not start with a verb or an adverb."
        ⟨TokenKind.ARTICLE, "the", [⟨TokenKind.TOK_EOF, ""⟩], 6⟩ :=
  (parseVerbPhrase_adverbs_without_verb
    ⟨TokenKind.ADVERB, "quickly",
      [⟨TokenKind.ADVERB, "silently"⟩, ⟨TokenKind.ARTICLE, "the"⟩, ⟨TokenKind.TOK_EOF, ""⟩], 4⟩
    [⟨TokenKind.ADVERB, "quickly"⟩, ⟨TokenKind.ADVERB, "silently"⟩]
    ⟨TokenKind.ARTICLE, "the"⟩ [⟨TokenKind.TOK_EOF, ""⟩]
    rfl (by simp) (by simp) (by decide) (by decide)).1

/-- C15. The message given to `expect` inside the adverb loop is never thrown:
the loop calls `expect(ADVERB, ...)` only on a current token that is ADVERB,
where it returns normally, so neither the loop nor `parseVerbPhrase`,
`parseSentence` or `parseStart` can end with that message, on any cursor. -/
theorem adverb_placeholder_unreachable (s s' : Cursor) :
    (s.lookahead = TokenKind.ADVERB →
        expect TokenKind.ADVERB "<verb phrase> did not start with adv" s
          = Outcome.ok s.yytext (next s)) ∧
      (∀ (fuel : Nat) (acc : List String),
        adverbLoop fuel acc s ≠ Outcome.thrown "<verb phrase> did not start with adv" s') ∧
      parseVerbPhrase s ≠ Outcome.thrown "<verb phrase> did not start with adv" s' ∧
      parseSentence s ≠ Outcome.thrown "<verb phrase> did not start with adv" s' ∧
      parseStart s ≠ Outcome.thrown "<verb phrase> did not start with adv" s' := by
  refine ⟨?_, ?_, ?_, ?_, ?_⟩
  · intro h
    rw [← h]
    exact expect_of_eq _ s
  · intro fuel acc
    exact adverbLoop_ne_thrown fuel acc s _ s'
  · intro h
    exact absurd (parseVerbPhrase_eq_thrown h) (by decide)
  · intro h
    rcases parseSentence_eq_thrown h with e | e | e | e | e <;> exact absurd e (by decide)
  · intro h
    exact absurd (parseStart_eq_thrown h) (by decide)

/-- C16. When `parseStart` throws, the tokens matched before the failure are
the first tokens `pre` of the source, their kinds are the beginning of some
well-formed input (a sentence and the end-of-input marker), the token the
cursor holds is the one the source delivers right after them (the marker when
the source is exhausted), no well-formed input begins with the kinds of `pre`
followed by the kind of that token, and that token is the last one pulled. -/
theorem parseStart_earliest_error (s : Cursor) (m : String) (s' : Cursor)
    (h : parseStart s = Outcome.thrown m s') :
    ∃ pre rest : List Token,
      s.input = pre ++ rest ∧
      Viable (pre.map Token.kind) ∧
      s'.lookahead = (yylex rest).1.kind ∧ s'.yytext = (yylex rest).1.lexeme ∧
      ¬ Viable (pre.map Token.kind ++ [s'.lookahead]) ∧
      s'.input = rest.tail ∧ s'.pulls = s.pulls + pre.length + 1 := by
  obtain ⟨pre, h1, h2⟩ := parseStart_thrown_matched h
  obtain ⟨rest, h3, h4⟩ := matched_input h1
  obtain ⟨v1, v2⟩ := stuck_viable h2
  refine ⟨pre, rest, h3, v1, ?_, ?_, v2, ?_, ?_⟩
  · rw [h4]; rfl
  · rw [h4]; rfl
  · rw [h4, next_input]
  · rw [h4]; rfl

/-- C16 on "the quick fox often the lazy dog": the verb is missing, and the
parser stops on the second "the". -/
theorem parseStart_earliest_error_witness :
    ∃ pre rest : List Token,
      [Token.mk TokenKind.ARTICLE "the", Token.mk TokenKind.ADJECTIVE "quick",
        Token.mk TokenKind.NOUN "fox", Token.mk TokenKind.ADVERB "often",
        Token.mk TokenKind.ARTICLE "the", Token.mk TokenKind.ADJECTIVE "lazy",
        Token.mk TokenKind.NOUN "dog", Token.mk TokenKind.TOK_EOF ""] = pre ++ rest ∧
      Viable (pre.map Token.kind) ∧
      TokenKind.ARTICLE = (yylex rest).1.kind ∧ "the" = (yylex rest).1.lexeme ∧
      ¬ Viable (pre.map Token.kind ++ [TokenKind.ARTICLE]) ∧
      [Token.mk TokenKind.ADJECTIVE "lazy", Token.mk TokenKind.NOUN "dog",
        Token.mk TokenKind.TOK_EOF ""] = rest.tail ∧
      5 = 0 + pre.length + 1 :=
  parseStart_earliest_error
    ⟨TokenKind.TOK_EOF, "",
      [⟨TokenKind.ARTICLE, "the"⟩, ⟨TokenKind.ADJECTIVE, "quick"⟩, ⟨TokenKind.NOUN, "fox"⟩,
        ⟨TokenKind.ADVERB, "often"⟩, ⟨TokenKind.ARTICLE, "the"⟩, ⟨TokenKind.ADJECTIVE, "lazy"⟩,
        ⟨TokenKind.NOUN, "dog"⟩, ⟨TokenKind.TOK_EOF, ""⟩], 0⟩
    "<verb phrase> did not start with a verb or an adverb."
    ⟨TokenKind.ARTICLE, "the",
      [⟨TokenKind.ADJECTIVE, "lazy"⟩, ⟨TokenKind.NOUN, "dog"⟩, ⟨TokenKind.TOK_EOF, ""⟩], 5⟩
    (by decide)

/-- C17. `parseStart` always ends, with a tree or with an exception. The adverb
loop, started on any cursor with any fuel from `input.length + 2` on, returns
normally and with the same result whatever that fuel: it went over adverbs
only, one pull each, it stopped on a current token that is not ADVERB, and its
iterations are at most the tokens that were left before the end-of-input
marker. -/
theorem parseStart_terminates (s : Cursor) :
    ((∃ (t : Sentence) (s' : Cursor), parseStart s = Outcome.ok t s') ∨
      (∃ (m : String) (s' : Cursor), parseStart s = Outcome.thrown m s')) ∧
    (∀ (acc : List String) (fuel : Nat), s.input.length + 2 ≤ fuel →
      ∃ (l : List String) (s' : Cursor),
        adverbLoop fuel acc s = Outcome.ok (acc ++ l) s' ∧
        adverbLoop (s.input.length + 2) acc s = Outcome.ok (acc ++ l) s' ∧
        s.pending = l.map (fun x => (⟨TokenKind.ADVERB, x⟩ : Token)) ++ s'.pending ∧
        s'.lookahead ≠ TokenKind.ADVERB ∧
        s'.pulls = s.pulls + l.length ∧
        l.length ≤ s.pending.length - 1) := by
  constructor
  · cases hres : parseStart s with
    | ok t s' => exact Or.inl ⟨t, s', rfl⟩
    | thrown m s' => exact Or.inr ⟨m, s', rfl⟩
    | outOfFuel => exact absurd hres (parseStart_ne_outOfFuel s)
  · intro acc fuel hf
    obtain ⟨advs, s', h0⟩ := adverbLoop_total (s.input.length + 2) acc s (le_refl _)
    obtain ⟨l, h1, h2, h3, h4⟩ := adverbLoop_eq_ok _ _ _ _ _ h0
    subst h1
    refine ⟨l, s', adverbLoop_mono _ _ _ _ _ h0 fuel hf, h0, h2, h3, h4, ?_⟩
    have hlen := congrArg List.length h2
    have hpos := pending_length_pos s'
    simp only [List.length_append, List.length_map] at hlen
    omega

/-- C18, as stated, fails in its count: on "the quick fox jumps the lazy dog"
and the marker, `parseStart` succeeds with no adverb after 8 calls of the
source, not 9. -/
theorem parseStart_pulls_not_nine :
    parseStart ⟨TokenKind.TOK_EOF, "",
        [⟨TokenKind.ARTICLE, "the"⟩, ⟨TokenKind.ADJECTIVE, "quick"⟩, ⟨TokenKind.NOUN, "fox"⟩,
          ⟨TokenKind.VERB, "jumps"⟩, ⟨TokenKind.ARTICLE, "the"⟩, ⟨TokenKind.ADJECTIVE, "lazy"⟩,
          ⟨TokenKind.NOUN, "dog"⟩, ⟨TokenKind.TOK_EOF, ""⟩], 0⟩ =
        Outcome.ok
          ⟨⟨⟨DetType.Article, "the", "quick"⟩, "fox"⟩, ⟨[], "jumps"⟩,
            ⟨⟨DetType.Article, "the", "lazy"⟩, "dog"⟩⟩
          ⟨TokenKind.TOK_EOF, "", [], 8⟩ ∧
      (8 : Nat) ≠ 9 + ([] : List String).length := by
  constructor
  · decide
  · decide

/-- C18, amended. `parseStart` pulls the tokens of the source in order, each
once, and none beyond the first end-of-input marker: when it throws it has made
at least one pull and at most as many as there are tokens up to and including
the marker; when it succeeds it has made exactly that many, which is 8 plus
the number of adverbs, and the cursor holds the marker. In both cases the
tokens still undelivered are the source's tokens without the pulled ones. -/
theorem parseStart_pulls (s : Cursor) :
    (∀ (m : String) (s' : Cursor), parseStart s = Outcome.thrown m s' →
      s.pulls < s'.pulls ∧
      s'.pulls - s.pulls ≤ (upToEOF s.input).length ∧
      s'.input = s.input.drop (s'.pulls - s.pulls)) ∧
    (∀ (t : Sentence) (s' : Cursor), parseStart s = Outcome.ok t s' →
      s'.pulls - s.pulls = (upToEOF s.input).length ∧
      s'.pulls = s.pulls + (8 + t.verbP.adverbs.length) ∧
      s'.lookahead = TokenKind.TOK_EOF ∧
      s'.input = s.input.drop (s'.pulls - s.pulls)) := by
  constructor
  · intro m s' h
    obtain ⟨pre, h1, _⟩ := parseStart_thrown_matched h
    obtain ⟨c1, c2, c3, _⟩ := matched_pull_count h1
    have hd : s'.pulls - s.pulls = pre.length + 1 := by omega
    rw [hd]
    exact ⟨by omega, c2, c3⟩
  · intro t s' h
    obtain ⟨pre, d1, d2, h1, _, _, h4, h5⟩ := parseStart_ok_matched h
    obtain ⟨c1, _, c3, c4⟩ := matched_pull_count h1
    have hd : s'.pulls - s.pulls = pre.length + 1 := by omega
    have hlen : pre.length = 7 + t.verbP.adverbs.length := by
      have := congrArg List.length h4
      simp only [List.length_map, List.length_append, List.length_cons, List.length_nil,
        List.length_replicate] at this
      omega
    rw [hd]
    exact ⟨(c4 h5).symm, by omega, h5, c3⟩

/-- C18 amended, on "her old car quickly stops the new bus", the marker and a
stray token after it: 9 pulls for one adverb, the stray token left alone. -/
theorem parseStart_pulls_witness :
    9 - 0 = (upToEOF [Token.mk TokenKind.POSSESSIVE "her", Token.mk TokenKind.ADJECTIVE "old",
        Token.mk TokenKind.NOUN "car", Token.mk TokenKind.ADVERB "quickly",
        Token.mk TokenKind.VERB "stops", Token.mk TokenKind.ARTICLE "the",
        Token.mk TokenKind.ADJECTIVE "new", Token.mk TokenKind.NOUN "bus",
        Token.mk TokenKind.TOK_EOF "", Token.mk TokenKind.NOUN "cat"]).length ∧
      9 = 0 + (8 + ["quickly"].length) ∧
      TokenKind.TOK_EOF = TokenKind.TOK_EOF ∧
      [Token.mk TokenKind.NOUN "cat"] =
        [Token.mk TokenKind.POSSESSIVE "her", Token.mk TokenKind.ADJECTIVE "old",
          Token.mk TokenKind.NOUN "car", Token.mk TokenKind.ADVERB "quickly",
          Token.mk TokenKind.VERB "stops", Token.mk TokenKind.ARTICLE "the",
          Token.mk TokenKind.ADJECTIVE "new", Token.mk TokenKind.NOUN "bus",
          Token.mk TokenKind.TOK_EOF "", Token.mk TokenKind.NOUN "cat"].drop (9 - 0) :=
  (parseStart_pulls
    ⟨TokenKind.TOK_EOF, "", [⟨TokenKind.POSSESSIVE, "her"⟩, ⟨TokenKind.ADJECTIVE, "old"⟩,
      ⟨TokenKind.NOUN, "car"⟩, ⟨TokenKind.ADVERB, "quickly"⟩, ⟨TokenKind.VERB, "stops"⟩,
      ⟨TokenKind.ARTICLE, "the"⟩, ⟨TokenKind.ADJECTIVE, "new"⟩, ⟨TokenKind.NOUN, "bus"⟩,
      ⟨TokenKind.TOK_EOF, ""⟩, ⟨TokenKind.NOUN, "cat"⟩], 0⟩).2
    ⟨⟨⟨DetType.Possessive, "her", "old"⟩, "car"⟩, ⟨["quickly"], "stops"⟩,
      ⟨⟨DetType.Article, "the", "new"⟩, "bus"⟩⟩
    ⟨TokenKind.TOK_EOF, "", [⟨TokenKind.NOUN, "cat"⟩], 9⟩
    (by decide)

/-- C19. The message of the FIRST check of `parseAdjectivePhrase` is never
thrown through its callers: not by `parseNounPhrase`, `parseSentence` or
`parseStart`, on any cursor, since past the FIRST check of `parseNounPhrase`
the one of `parseAdjectivePhrase` passes too. Likewise, past the FIRST check of
`parseSentence` the subject's `parseNounPhrase` does not throw its FIRST
message: when `parseSentence` throws that message the subject has been parsed
and the message comes from the object. -/
theorem adjective_first_message_unreachable (s s' : Cursor) :
    parseNounPhrase s ≠
        Outcome.thrown "<adjective phrase> did not start with an article or possessive." s' ∧
      parseSentence s ≠
        Outcome.thrown "<adjective phrase> did not start with an article or possessive." s' ∧
      parseStart s ≠
        Outcome.thrown "<adjective phrase> did not start with an article or possessive." s' ∧
      ((s.lookahead = TokenKind.ARTICLE ∨ s.lookahead = TokenKind.POSSESSIVE) →
        parseAdjectivePhrase s ≠
            Outcome.thrown "<adjective phrase> did not start with an article or possessive." s' ∧
          parseNounPhrase s ≠
            Outcome.thrown "<noun phrase> did not start with an article or possessive." s') ∧
      (parseSentence s =
          Outcome.thrown "<noun phrase> did not start with an article or possessive." s' →
        ∃ (np : NounPhrase) (s1 : Cursor), parseNounPhrase s = Outcome.ok np s1) := by
  have key : (s.lookahead = TokenKind.ARTICLE ∨ s.lookahead = TokenKind.POSSESSIVE) →
      parseNounPhrase s ≠
        Outcome.thrown "<noun phrase> did not start with an article or possessive." s' := by
    intro hd h
    have hD : ¬ (s.lookahead ≠ TokenKind.ARTICLE ∧ s.lookahead ≠ TokenKind.POSSESSIVE) := by
      rcases hd with e | e <;> simp [e]
    rw [parseNounPhrase_eq, if_neg hD] at h
    split at h
    · simp only [Outcome.thrown.injEq] at h
      exact absurd h.1 (by decide)
    · split at h
      · simp only [Outcome.thrown.injEq] at h
        exact absurd h.1 (by decide)
      · simp at h
  refine ⟨?_, ?_, ?_, ?_, ?_⟩
  · intro h
    rcases parseNounPhrase_eq_thrown h with e | e | e <;> exact absurd e (by decide)
  · intro h
    rcases parseSentence_eq_thrown h with e | e | e | e | e <;> exact absurd e (by decide)
  · intro h
    rcases parseStart_eq_thrown_cases h with e | e | e | e | e | e <;>
      exact absurd e (by decide)
  · intro hd
    refine ⟨?_, key hd⟩
    intro h
    have hD : ¬ (s.lookahead ≠ TokenKind.ARTICLE ∧ s.lookahead ≠ TokenKind.POSSESSIVE) := by
      rcases hd with e | e <;> simp [e]
    rw [parseAdjectivePhrase_eq, if_neg hD] at h
    split at h
    · simp at h
    · simp only [Outcome.thrown.injEq] at h
      exact absurd h.1 (by decide)
  · intro h
    have h' := h
    unfold parseSentence at h'
    split at h'
    · simp only [Outcome.thrown.injEq] at h'
      exact absurd h'.1 (by decide)
    · rename_i hD
      have hd : s.lookahead = TokenKind.ARTICLE ∨ s.lookahead = TokenKind.POSSESSIVE := by
        by_contra hc
        exact hD ⟨fun h => hc (Or.inl h), fun h => hc (Or.inr h)⟩
      rcases bind_eq_thrown h' with h1 | ⟨np1, s1, h1, _⟩
      · exact absurd h1 (key hd)
      · exact ⟨np1, s1, h1⟩

/-- C20. On a cursor that passes the FIRST check of `parseVerbPhrase` and on
which the adverb loop collects no adverb, the current token is VERB, the
`expect(VERB, ...)` after the loop returns normally, and the procedure returns
the node with no adverb. So when `parseVerbPhrase` throws without having pulled
a token it is at its FIRST check, and when it throws past the FIRST check it
has pulled at least one adverb. -/
theorem parseVerbPhrase_zero_adverbs (s : Cursor) :
    ((s.lookahead = TokenKind.VERB ∨ s.lookahead = TokenKind.ADVERB) →
      (∃ s1 : Cursor, adverbLoop (s.input.length + 2) [] s = Outcome.ok [] s1) →
        s.lookahead = TokenKind.VERB ∧
        adverbLoop (s.input.length + 2) [] s = Outcome.ok [] s ∧
        expect TokenKind.VERB "<verb phrase> did not start with a verb or an adverb." s
          = Outcome.ok s.yytext (next s) ∧
        parseVerbPhrase s = Outcome.ok ⟨[], s.yytext⟩ (next s)) ∧
    (∀ (m : String) (s' : Cursor), parseVerbPhrase s = Outcome.thrown m s' →
      (s'.pulls = s.pulls →
        s' = s ∧ s.lookahead ≠ TokenKind.VERB ∧ s.lookahead ≠ TokenKind.ADVERB) ∧
      ((s.lookahead = TokenKind.VERB ∨ s.lookahead = TokenKind.ADVERB) →
        s.pulls < s'.pulls)) := by
  constructor
  · intro hfirst ⟨s1, hloop⟩
    obtain ⟨pre, m1, _, m3, m4⟩ := adverbLoop_ok_matched _ _ _ _ _ hloop
    have hpre : pre = [] := by
      cases pre with
      | nil => rfl
      | cons t ts => simp at m4
    subst hpre
    simp only [Matched] at m1
    subst m1
    have hv : s1.lookahead = TokenKind.VERB := by
      rcases hfirst with e | e
      · exact e
      · exact absurd e m3
    have hF : ¬ (s1.lookahead ≠ TokenKind.VERB ∧ s1.lookahead ≠ TokenKind.ADVERB) := by
      simp [hv]
    have hexp : expect TokenKind.VERB "<verb phrase> did not start with a verb or an adverb." s1
        = Outcome.ok s1.yytext (next s1) := by
      rw [← hv]
      exact expect_of_eq _ s1
    refine ⟨hv, hloop, hexp, ?_⟩
    unfold parseVerbPhrase
    rw [if_neg hF, hloop, bind_ok, hexp, bind_ok]
  · intro m s' h
    obtain ⟨pre, n, m1, m2, m3, m4⟩ := parseVerbPhrase_thrown_matched h
    have hp := matched_pulls m1
    constructor
    · intro he
      have hpre : pre = [] := by
        cases pre with
        | nil => rfl
        | cons t ts =>
          simp only [List.length_cons] at hp
          omega
      subst hpre
      simp only [Matched] at m1
      subst m1
      exact ⟨rfl, m3, m4⟩
    · intro hfirst
      cases pre with
      | nil =>
        simp only [Matched] at m1
        subst m1
        rcases hfirst with e | e
        · exact absurd e m3
        · exact absurd e m4
      | cons t ts =>
        simp only [List.length_cons] at hp
        omega

/-- C20 on the verb "jumps" followed by an article. -/
theorem parseVerbPhrase_zero_adverbs_witness :
    TokenKind.VERB = TokenKind.VERB ∧
      adverbLoop ([Token.mk TokenKind.ARTICLE "the"].length + 2) []
          ⟨TokenKind.VERB, "jumps", [Token.mk TokenKind.ARTICLE "the"], 4⟩ =
        Outcome.ok [] ⟨TokenKind.VERB, "jumps", [Token.mk TokenKind.ARTICLE "the"], 4⟩ ∧
      expect TokenKind.VERB "<verb phrase> did not start with a verb or an adverb."
          ⟨TokenKind.VERB, "jumps", [Token.mk TokenKind.ARTICLE "the"], 4⟩ =
        Outcome.ok "jumps" (next ⟨TokenKind.VERB, "jumps", [Token.mk TokenKind.ARTICLE "the"], 4⟩) ∧
      parseVerbPhrase ⟨TokenKind.VERB, "jumps", [Token.mk TokenKind.ARTICLE "the"], 4⟩ =
        Outcome.ok ⟨[], "jumps"⟩
          (next ⟨TokenKind.VERB, "jumps", [Token.mk TokenKind.ARTICLE "the"], 4⟩) :=
  (parseVerbPhrase_zero_adverbs
    ⟨TokenKind.VERB, "jumps", [Token.mk TokenKind.ARTICLE "the"], 4⟩).1
    (Or.inl rfl) ⟨⟨TokenKind.VERB, "jumps", [Token.mk TokenKind.ARTICLE "the"], 4⟩, by decide⟩

end Lab2
